import Mathlib

/-!
The KSM merge-verification harness of `testcases/kernel/mem/lib/mem.c`.

A shallow embedding of the KSM section of `mem.c`, with the standard-id
validator of `v4l2_validator.c`, and the properties of them that the
specification states.

Conventions of the embedding.

* C `int`/`long` quantities that count things (sizes in MB, unit and byte
  indices, process numbers, poll counts) are natural numbers; values that
  may be negative (parsed options, expected counter values) are integers.
  Arithmetic is the unbounded one: the development speaks of runs in which
  no C expression leaves the range of its type. The one exception is the
  byte count of `_verify`, an `int` product passed as a `size_t`, which is
  wrapped to 32 bits.
* `tst_resm(TINFO, ...)` lines carry no verdict and are left out of the
  logs; every `tst_resm(TFAIL, ...)` is kept, with its arguments.
* `tst_brkm(TBROK, cleanup, ...)` ends the test: it is an outcome of its own.
* `read_file`, `write_file` and `raise` are taken to succeed. What `malloc`
  and `mmap` return and which addresses are mapped is the child's
  environment (`Env`): a NULL from `malloc` or a failed `mmap` ends the child
  as the code says, and a read or write of an address that is not mapped
  kills it with SIGSEGV, a division by zero with SIGFPE.
* The 64-bit type `v4l2_std_id` is a natural number below `2^64`, with `~`
  taken modulo `2^64`.
* The stop/continue protocol is run one child at a time: a child's work
  between two stops touches only its own memory, so it is advanced when the
  parent waits for it.
-/

namespace LtpMem

/-! ## Child side: memory units, fill and byte-level verification -/

/-- Modelled from the spec: the macro `MB` of `mem.h`, a header that is not
among the sources. The spec sizes every region in MB (megabytes), that is
`2^20` bytes. -/
def MB : Nat := 1048576

/-- The `char **memory` of a child: `memory j i` is the byte `memory[j][i]`.
For `i` at or past the length of unit `j` it is the byte found at that
address past the unit, if the address is mapped at all (`Env.mapped`); only
the `memcmp` of `_verify` reads there. -/
abbrev Memory := Nat → Nat → Char

/-- The `struct ksm_merge_data` of `mem.c`: the fill byte and the mergeable
size in bytes. -/
structure ksm_merge_data where
  data : Char
  mergeable_size : Nat
deriving DecidableEq, Repr

/-- The assignment `memory[j][i] = c`. -/
def store (memory : Memory) (j i : Nat) (c : Char) : Memory :=
  fun j' i' => if j' = j ∧ i' = i then c else memory j' i'

/-- The inner loop `for (i = 0; i < n; i++) memory[j][i] = data;` of
`ksm_child_memset`: the memory after its `n` iterations. -/
def fill_unit (data : Char) (j : Nat) : Nat → Memory → Memory
  | 0, memory => memory
  | n + 1, memory => store (fill_unit data j n memory) j n data

/-- The outer loop `for (j = 0; j < total_unit; j++)` of `ksm_child_memset`
around the inner loop of bound `len`: the memory after `total_unit`
iterations. -/
def fill_units (data : Char) (len : Nat) : Nat → Memory → Memory
  | 0, memory => memory
  | t + 1, memory => fill_unit data t len (fill_units data len t memory)

/-- The function `ksm_child_memset` (mem.c 243-271). It needs `total_unit ≥ 1`
(C divides by it, and reads `i` as the last inner loop left it). -/
def ksm_child_memset (_child_num size total_unit : Nat)
    (ksm_merge_data : ksm_merge_data) (memory : Memory) : Memory :=
  let unit := size / total_unit
  let memory := fill_units ksm_merge_data.data (unit * MB) total_unit memory
  -- the loop variables once both loops have ended
  let j := total_unit
  let i := unit * MB
  if ksm_merge_data.mergeable_size < size * MB then
    store memory (j - 1) (i - 1) 'e'
  else
    memory

/-- One `tst_resm(TFAIL, "child %d has %c at %d,%d,%d.", proc, memory[j][i],
proc, j, i)` of `_verify`. -/
structure VerifyFail where
  proc : Nat
  c : Char
  j : Nat
  i : Nat
deriving DecidableEq, Repr

/-- How a stretch of the child's code ends: it returns, or the child is
killed by a signal, or a `tst_brkm(TBROK, ...)` ends the child. -/
inductive Ending where
  | returned
  | SIGSEGV
  | SIGFPE
  | TBROK
deriving DecidableEq, Repr

/-- What the child's code meets outside its own variables: which addresses
are mapped and which allocations succeed. `mapped j i` says that the address
`memory[j] + i` can be read and written; `malloc n` that `malloc(n)` returns
a buffer and not NULL; `mmap j` that the `mmap` and `madvise` calls for unit
`j` succeed. -/
structure Env where
  mapped : Nat → Nat → Bool
  malloc : Nat → Bool
  mmap : Nat → Bool

/-- The value an `int` holds when the exact result of its arithmetic is `x`:
32 bits, two's complement, as the compiled code computes it. -/
def to_int (x : Int) : Int := (x + 2147483648) % 4294967296 - 2147483648

/-- The conversion of an `int` to the 64-bit `size_t` that `malloc`, `memset`
and `memcmp` take. -/
def to_size_t (x : Int) : Nat := (x % 18446744073709551616).toNat

/-- The comparison `memcmp` makes of the `m` bytes from offset `k` on, in the
order of the addresses: `some true` at the first difference, `some false`
when all are equal, `none` when it comes to an address of `p` that is not
mapped before it has found a difference (the child is killed by SIGSEGV).
`readable k` says whether `p + k` is mapped; `s` is the caller's own
buffer. -/
def memcmp_from (readable : Nat → Bool) (p s : Nat → Char) : Nat → Nat → Option Bool
  | 0, _ => some false
  | m + 1, k =>
    if readable k then
      if p k != s k then some true else memcmp_from readable p s m (k + 1)
    else none

/-- The test `memcmp(p, s, n) != 0`, where `p k` and `s k` are the bytes at
`p + k` and `s + k`; `none` is the SIGSEGV of a read outside the mapped
addresses. -/
def memcmp_ne (readable : Nat → Bool) (p s : Nat → Char) (n : Nat) : Option Bool :=
  memcmp_from readable p s n 0

/-- What one call of `_verify`, or the calls of one round, leave behind: the
TFAIL lines printed, in order, and how the code ended. -/
structure VerifyRun where
  fails : List VerifyFail
  ending : Ending
deriving DecidableEq, Repr

/-- The function `_verify` (mem.c 203-225). The byte count
`(end - start) * (end2 - start2)` is an `int` product passed as a `size_t`;
a NULL from `malloc` is a TBROK; the buffer `s` holds that many copies of
`value`, and `memcmp` reads as many bytes from the one unit `memory[start]`,
past its end if the count is larger than the unit. The loops run only when
`memcmp` finds a difference; they read inside the units, for ranges that lie
inside the units. -/
def _verify (env : Env) (memory : Memory) (value : Char)
    (proc start end_ start2 end2 : Nat) : VerifyRun :=
  let n := to_size_t (to_int (((end_ : Int) - (start : Int)) * ((end2 : Int) - (start2 : Int))))
  if env.malloc n then
    let s : Nat → Char := fun _ => value
    match memcmp_ne (env.mapped start) (memory start) s n with
    | none => ⟨[], .SIGSEGV⟩
    | some true =>
      ⟨(List.range' start (end_ - start)).flatMap fun j =>
          (List.range' start2 (end2 - start2)).filterMap fun i =>
            if memory j i != value then some ⟨proc, memory j i, j, i⟩ else none,
        .returned⟩
    | some false => ⟨[], .returned⟩
  else
    ⟨[], .TBROK⟩

/-- The checks after the round's stop in `create_ksm_child` (mem.c 311-319),
with `total_unit = size / unit` as computed at its line 280. A first call
that does not return ends the child before the second. -/
def post_round_verify (env : Env) (child_num size unit : Nat) (d : ksm_merge_data)
    (memory : Memory) : VerifyRun :=
  let total_unit := size / unit
  if d.mergeable_size < size * MB then
    let r1 := _verify env memory 'e' child_num (total_unit - 1) total_unit
      (unit * MB - 1) (unit * MB)
    match r1.ending with
    | .returned =>
      let r2 := _verify env memory d.data child_num 0 total_unit 0 (unit * MB - 1)
      ⟨r1.fails ++ r2.fails, r2.ending⟩
    | _ => r1
  else
    _verify env memory d.data child_num 0 total_unit 0 (unit * MB)

/-- What a child does that others can see: it stops itself, or prints a
TFAIL line. -/
inductive ChildEvent where
  | raise_SIGSTOP
  | tfail (f : VerifyFail)
deriving DecidableEq, Repr

/-- A stretch of the child's run: its memory afterwards, its events in order
and how the stretch ended. After an ending other than `returned` the child
is gone. -/
structure ChildRun where
  memory : Memory
  events : List ChildEvent
  ending : Ending

/-- Whether the fill of `ksm_child_memset` writes to an address that is not
mapped: it writes `memory[j][i]` for `j < total_unit` and
`i < size / total_unit * MB`, which is more than the `unit * MB` bytes of a
unit when `unit` does not divide `size`. -/
def fill_faults (env : Env) (size total_unit : Nat) : Bool :=
  (List.range total_unit).any fun j =>
    (List.range (size / total_unit * MB)).any fun i => !env.mapped j i

/-- One iteration of the loop `for (j = 0; j < 4; j++)` of `create_ksm_child`
(mem.c 300-320), for `unit >= 1`: fill, stop, verify. With `total_unit == 0`
the division `size / total_unit` of `ksm_child_memset` (mem.c 247) is a
SIGFPE, and a fill that leaves the mapped units is a SIGSEGV, both before
the stop. The memory is the child's own private mapping, so it is the same
before and after the stop. -/
def create_ksm_child_round (env : Env) (child_num size unit : Nat) (d : ksm_merge_data)
    (memory : Memory) : ChildRun :=
  let total_unit := size / unit
  if total_unit = 0 then ⟨memory, [], .SIGFPE⟩
  else if fill_faults env size total_unit then ⟨memory, [], .SIGSEGV⟩
  else
    let memory := ksm_child_memset child_num size total_unit d memory
    let v := post_round_verify env child_num size unit d memory
    ⟨memory, ChildEvent.raise_SIGSTOP :: v.fails.map ChildEvent.tfail, v.ending⟩

/-- The rounds of `create_ksm_child`, one per pattern, in order, up to the
first that does not return. -/
def create_ksm_child_rounds (env : Env) (child_num size unit : Nat) :
    List ksm_merge_data → Memory → ChildRun
  | [], memory => ⟨memory, [], .returned⟩
  | d :: ds, memory =>
    let r := create_ksm_child_round env child_num size unit d memory
    match r.ending with
    | .returned =>
      let rest := create_ksm_child_rounds env child_num size unit ds r.memory
      ⟨rest.memory, r.events ++ rest.events, rest.ending⟩
    | _ => r

/-- The function `create_ksm_child` for a negative `unit`, which
`check_ksm_options` lets through when it divides `size`. Then
`total_unit = size / unit <= 0`: the `malloc` of a negative byte count
(mem.c 283) gives NULL, unchecked, no unit is mapped and the child stops
(mem.c 296). In the first round `ksm_child_memset` divides by `total_unit`
(SIGFPE when it is 0), its loops do not run, and its store of `'e'` goes
through `memory[-1]` of the NULL array (SIGSEGV); after the round's stop
`_verify` allocates its buffer and reads `memory[start]` of the NULL array
(SIGSEGV). -/
def create_ksm_child_negative (env : Env) (size : Nat) (unit : Int)
    (ksm_merge_data : List ksm_merge_data) (memory : Memory) : ChildRun :=
  let total_unit := Int.tdiv (size : Int) unit
  match ksm_merge_data with
  | [] => ⟨memory, [.raise_SIGSTOP], .returned⟩
  | d :: _ =>
    if total_unit = 0 then ⟨memory, [.raise_SIGSTOP], .SIGFPE⟩
    else if d.mergeable_size < size * MB then ⟨memory, [.raise_SIGSTOP], .SIGSEGV⟩
    else if env.malloc (to_size_t (to_int (total_unit * (unit * (MB : Int))))) then
      ⟨memory, [.raise_SIGSTOP, .raise_SIGSTOP], .SIGSEGV⟩
    else ⟨memory, [.raise_SIGSTOP, .raise_SIGSTOP], .TBROK⟩

/-- The function `create_ksm_child` (mem.c 273-323). `unit == 0` is a SIGFPE
at `size / unit` (mem.c 280). For `unit >= 1`: a NULL pointer array makes the
first `memory[j] = mmap(...)` a SIGSEGV (the array holds `total_unit`
pointers of 8 bytes), a failed `mmap` or `madvise` is a TBROK; then the
child stops once and runs the rounds `ksm_merge_data[0..3]` on `memory`, the
content of the fresh units. -/
def create_ksm_child (env : Env) (child_num size : Nat) (unit : Int)
    (ksm_merge_data : List ksm_merge_data) (memory : Memory) : ChildRun :=
  if unit = 0 then ⟨memory, [], .SIGFPE⟩
  else if unit < 0 then create_ksm_child_negative env size unit ksm_merge_data memory
  else
    let unit := unit.toNat
    let total_unit := size / unit
    if 1 ≤ total_unit ∧ env.malloc (total_unit * 8) = false then ⟨memory, [], .SIGSEGV⟩
    else if (List.range total_unit).any (fun j => !env.mmap j) then ⟨memory, [], .TBROK⟩
    else
      let r := create_ksm_child_rounds env child_num size unit (ksm_merge_data.take 4) memory
      ⟨r.memory, ChildEvent.raise_SIGSTOP :: r.events, r.ending⟩

/-- The content a round is meant to leave at `memory[j][i]`: the fill byte,
except `'e'` at the last byte of the last unit when the mergeable size is
below the full allocation. -/
def expected_byte (size unit : Nat) (d : ksm_merge_data) (j i : Nat) : Char :=
  if d.mergeable_size < size * MB ∧ j = size / unit - 1 ∧ i = unit * MB - 1 then 'e'
  else d.data

/-! ## Parent side: KSM control files, the quiescence poll and the oracle -/

/-- The files under `PATH_KSM` that the harness reads or writes. -/
inductive KsmFile where
  | run
  | pages_shared
  | pages_sharing
  | pages_volatile
  | pages_unshared
  | sleep_millisecs
  | pages_to_scan
deriving DecidableEq, Repr

/-- The parsed content of every KSM file at one moment. -/
abbrev KsmState := KsmFile → Int

/-- The four counters one poll of `_wait_ksmd_done` reads. -/
structure Snapshot where
  pages_shared : Int
  pages_sharing : Int
  pages_volatile : Int
  pages_unshared : Int
deriving DecidableEq, Repr

/-- The counters of a KSM state, as one poll reads them. -/
def snapshot (st : KsmState) : Snapshot :=
  ⟨st .pages_shared, st .pages_sharing, st .pages_volatile, st .pages_unshared⟩

/-- The loop `while (changing)` of `_wait_ksmd_done` (mem.c 153-180).
`reads k` is what the `k`-th poll reads, `count` the polls made so far and
`old` the `old_*` variables. Each iteration sleeps, polls and compares; the
loop ends at the first poll that reads the `old_*` values again. `none`
means the fuel ran out with the counters still changing. -/
def wait_loop (reads : Nat → Snapshot) : Nat → Nat → Snapshot → Option Nat
  | 0, _, _ => none
  | fuel + 1, count, old =>
    let count := count + 1
    let new := reads count
    if new.pages_shared ≠ old.pages_shared ∨ new.pages_sharing ≠ old.pages_sharing ∨
        new.pages_volatile ≠ old.pages_volatile ∨ new.pages_unshared ≠ old.pages_unshared then
      wait_loop reads fuel count new
    else
      some count

/-- The function `_wait_ksmd_done` (mem.c 145-184): the value of `count`
when it returns. The `old_*` variables start at 0. -/
def _wait_ksmd_done (reads : Nat → Snapshot) (fuel : Nat) : Option Nat :=
  wait_loop reads fuel 0 ⟨0, 0, 0, 0⟩

/-- The values poll `k` is compared with, as long as the loop runs: those
poll `k - 1` read, and for the first poll the zeros the `old_*` variables
start at. -/
def previous (reads : Nat → Snapshot) (k : Nat) : Snapshot :=
  if k ≤ 1 then ⟨0, 0, 0, 0⟩ else reads (k - 1)

/-- One `tst_resm(TFAIL, "%s is not %ld.", path, value)` of `_check`. -/
structure CheckFail where
  path : KsmFile
  value : Int
deriving DecidableEq, Repr

/-- The function `_check` (mem.c 130-143) on the files as they are in `st`:
it reads `path` and prints a TFAIL line if the value is not `value`. -/
def _check (st : KsmState) (path : KsmFile) (value : Int) : List CheckFail :=
  let actual_val := st path
  if actual_val ≠ value then [⟨path, value⟩] else []

/-- The function `_group_check` (mem.c 186-201). `ksm k` is the content of
the files at the `k`-th poll; the seven checks follow the last poll at
once and read the same content. `none` means the wait never ended within
the fuel. -/
def _group_check (fuel : Nat) (ksm : Nat → KsmState)
    (run pages_shared pages_sharing pages_volatile pages_unshared
      sleep_millisecs pages_to_scan : Int) : Option (List CheckFail) :=
  match _wait_ksmd_done (fun k => snapshot (ksm k)) fuel with
  | none => none
  | some count =>
    let st := ksm count
    some (_check st .run run ++ _check st .pages_shared pages_shared ++
      _check st .pages_sharing pages_sharing ++ _check st .pages_volatile pages_volatile ++
      _check st .pages_unshared pages_unshared ++
      _check st .sleep_millisecs sleep_millisecs ++ _check st .pages_to_scan pages_to_scan)

/-- The seven KSM files in the order `_group_check` checks them. -/
def checked_files : List KsmFile :=
  [.run, .pages_shared, .pages_sharing, .pages_volatile, .pages_unshared,
    .sleep_millisecs, .pages_to_scan]

/-- The seven arguments of one `_group_check` call. -/
structure Expected where
  run : Int
  pages_shared : Int
  pages_sharing : Int
  pages_volatile : Int
  pages_unshared : Int
  sleep_millisecs : Int
  pages_to_scan : Int
deriving DecidableEq, Repr

/-- The expected value of each file in a tuple of `_group_check` arguments. -/
def Expected.value (e : Expected) : KsmFile → Int
  | .run => e.run
  | .pages_shared => e.pages_shared
  | .pages_sharing => e.pages_sharing
  | .pages_volatile => e.pages_volatile
  | .pages_unshared => e.pages_unshared
  | .sleep_millisecs => e.sleep_millisecs
  | .pages_to_scan => e.pages_to_scan

/-! ## Parent side: `create_same_memory` -/

/-- The table `ksm_data0` of `create_same_memory` (mem.c 357-359). -/
def ksm_data0 (size : Nat) : List ksm_merge_data :=
  [⟨'c', size * MB⟩, ⟨'c', size * MB⟩, ⟨'d', size * MB⟩, ⟨'d', size * MB⟩]

/-- The table `ksm_data1` of `create_same_memory` (mem.c 360-362). -/
def ksm_data1 (size : Nat) : List ksm_merge_data :=
  [⟨'a', size * MB⟩, ⟨'b', size * MB⟩, ⟨'d', size * MB⟩, ⟨'d', size * MB - 1⟩]

/-- The table `ksm_data2` of `create_same_memory` (mem.c 363-365). -/
def ksm_data2 (size : Nat) : List ksm_merge_data :=
  [⟨'a', size * MB⟩, ⟨'a', size * MB⟩, ⟨'d', size * MB⟩, ⟨'d', size * MB⟩]

/-- The table child `i` runs `create_ksm_child` with (mem.c 373-405): from
the third child on, a copy of `ksm_data0`. -/
def child_data (size i : Nat) : List ksm_merge_data :=
  if i = 0 then ksm_data0 size
  else if i = 1 then ksm_data1 size
  else if i = 2 then ksm_data2 size
  else ksm_data0 size

/-- The `pages = MB / ps` of `create_same_memory` (mem.c 367-368), where
`ps` is the page size `sysconf(_SC_PAGE_SIZE)` returned. -/
def pages (ps : Nat) : Nat := MB / ps

/-- One statement of the parent in `create_same_memory` after the forks. -/
inductive Step where
  | stop_ksm_children
  | resume_ksm_children
  | write_file (path : KsmFile) (value : Int)
  | group_check (e : Expected)
  | reap
deriving DecidableEq, Repr

/-- The function `create_same_memory` (mem.c 350-448), parent side, from
line 409 on: its statements in program order. -/
def create_same_memory (size num _unit ps : Nat) : List Step :=
  let pages : Int := (pages ps : Nat)
  let size : Int := (size : Nat)
  let num : Int := (num : Nat)
  [ .stop_ksm_children,
    .write_file .run 1,
    .write_file .pages_to_scan (size * pages * num),
    .write_file .sleep_millisecs 0,
    .resume_ksm_children,
    .group_check ⟨1, 2, size * num * pages - 2, 0, 0, 0, size * pages * num⟩,
    .stop_ksm_children,
    .resume_ksm_children,
    .group_check ⟨1, 3, size * num * pages - 3, 0, 0, 0, size * pages * num⟩,
    .stop_ksm_children,
    .resume_ksm_children,
    .group_check ⟨1, 1, size * num * pages - 1, 0, 0, 0, size * pages * num⟩,
    .stop_ksm_children,
    .resume_ksm_children,
    .group_check ⟨1, 1, size * num * pages - 2, 0, 1, 0, size * pages * num⟩,
    .stop_ksm_children,
    .write_file .run 2,
    .resume_ksm_children,
    .group_check ⟨2, 0, 0, 0, 0, 0, size * pages * num⟩,
    .write_file .run 0,
    .group_check ⟨0, 0, 0, 0, 0, 0, size * pages * num⟩,
    .reap ]

/-- The arguments of the `_group_check` calls among some statements, in
order. -/
def group_checks : List Step → List Expected
  | [] => []
  | .group_check e :: rest => e :: group_checks rest
  | _ :: rest => group_checks rest

/-- What the parent does, one system interaction at a time. -/
inductive Action where
  | stop_ksm_children
  | resume_ksm_children
  | write_file (path : KsmFile) (value : Int)
  | read_file (path : KsmFile)
  | sleep
  | reap
deriving DecidableEq, Repr

/-- The interactions of one `_wait_ksmd_done` that polls `polls` times: each
poll sleeps, then reads the four counters (mem.c 154-167). -/
def wait_actions : Nat → List Action
  | 0 => []
  | polls + 1 =>
    [.sleep, .read_file .pages_shared, .read_file .pages_sharing,
      .read_file .pages_volatile, .read_file .pages_unshared] ++ wait_actions polls

/-- The interactions of one `_group_check` whose wait polls `polls` times:
the wait, then one read per `_check`. -/
def group_check_actions (polls : Nat) : List Action :=
  wait_actions polls ++ checked_files.map Action.read_file

/-- The interactions of a list of statements. `polls k` is the number of
polls the wait of the `k`-th `_group_check` makes (it depends on the
kernel); `k` counts the calls already made. -/
def actions (polls : Nat → Nat) : Nat → List Step → List Action
  | _, [] => []
  | k, .group_check _ :: rest => group_check_actions (polls k) ++ actions polls (k + 1) rest
  | k, .stop_ksm_children :: rest => .stop_ksm_children :: actions polls k rest
  | k, .resume_ksm_children :: rest => .resume_ksm_children :: actions polls k rest
  | k, .write_file path value :: rest => .write_file path value :: actions polls k rest
  | k, .reap :: rest => .reap :: actions polls k rest

/-- Whether all children are known to be stopped once an action is done: a
`stop_ksm_children` barrier has returned and no `resume_ksm_children`
followed it. -/
def stopped_after (stopped : Bool) : Action → Bool
  | .stop_ksm_children => true
  | .resume_ksm_children => false
  | _ => stopped

/-- Each action paired with whether all children are stopped when it
starts. -/
def with_state (stopped : Bool) : List Action → List (Action × Bool)
  | [] => []
  | a :: rest => (a, stopped) :: with_state (stopped_after stopped a) rest

/-- Whether an action reads or writes a KSM control file. -/
def Action.is_ksm_access : Action → Bool
  | .write_file _ _ => true
  | .read_file _ => true
  | _ => false

/-- The parent's run of `create_same_memory` after the forks: every action
with the barrier state it happens in. The children run when it starts. -/
def parent_run (polls : Nat → Nat) (size num unit ps : Nat) : List (Action × Bool) :=
  with_state false (actions polls 0 (create_same_memory size num unit ps))

/-- Where the parent stands in the stop/continue protocol: before its first
barrier (the children run since the fork), after its `k`-th
`stop_ksm_children` with no `resume_ksm_children` since, or after the resume
that followed its `k`-th barrier with no barrier since. -/
inductive Phase where
  | initial
  | stopped (k : Nat)
  | resumed (k : Nat)
deriving DecidableEq, Repr

/-- The number of barriers the parent has passed. -/
def Phase.barriers : Phase → Nat
  | .initial => 0
  | .stopped k => k
  | .resumed k => k

/-- Whether all children are known to be stopped in a phase. -/
def Phase.is_stopped : Phase → Bool
  | .stopped _ => true
  | _ => false

/-- The phase once an action is done: a barrier opens the next stopped
phase, a resume turns a stopped phase into the resumed phase of the same
barrier and changes nothing when no barrier came since the last resume. -/
def phase_after (ph : Phase) : Action → Phase
  | .stop_ksm_children => .stopped (ph.barriers + 1)
  | .resume_ksm_children =>
    match ph with
    | .stopped k => .resumed k
    | _ => ph
  | _ => ph

/-- Each action paired with the phase in which it starts. -/
def with_phase (ph : Phase) : List Action → List (Action × Phase)
  | [] => []
  | a :: rest => (a, ph) :: with_phase (phase_after ph a) rest

/-- The parent's run of `create_same_memory` after the forks: every action
with the phase of the protocol it happens in. -/
def parent_phases (polls : Nat → Nat) (size num unit ps : Nat) : List (Action × Phase) :=
  with_phase .initial (actions polls 0 (create_same_memory size num unit ps))

/-! ## Option check -/

/-- How a run of `check_ksm_options` can end without returning. -/
inductive Abort where
  | TBROK (msg : String)
  | division_by_zero
deriving DecidableEq, Repr

/-- The `-s` block of `check_ksm_options` (mem.c 452-456): the new `*size`.
`opt_size` is `some s` when the option is given and `atoi` parses `s`. -/
def check_size (opt_size : Option Int) (size : Int) : Except Abort Int :=
  match opt_size with
  | none => .ok size
  | some s => if s < 1 then .error (.TBROK "size cannot be less than 1.") else .ok s

/-- The `-u` block of `check_ksm_options` (mem.c 457-466): the new `*unit`.
The remainder `*size % *unit` is C's; with `*unit == 0` it is a division by
zero. -/
def check_unit (opt_unit : Option Int) (size unit : Int) : Except Abort Int :=
  match opt_unit with
  | none => .ok unit
  | some u =>
    if u > size then .error (.TBROK "unit cannot be greater than size.")
    else if u = 0 then .error .division_by_zero
    else if Int.tmod size u ≠ 0 then
      .error (.TBROK "the remainder of division of size by unit is not zero.")
    else .ok u

/-- The `-n` block of `check_ksm_options` (mem.c 467-472): the new `*num`. -/
def check_num (opt_num : Option Int) (num : Int) : Except Abort Int :=
  match opt_num with
  | none => .ok num
  | some n => if n < 3 then .error (.TBROK "process number cannot be less 3.") else .ok n

/-- The function `check_ksm_options` (mem.c 450-473): the values of
`(*size, *num, *unit)` when it returns. -/
def check_ksm_options (opt_size opt_num opt_unit : Option Int) (size num unit : Int) :
    Except Abort (Int × Int × Int) :=
  match check_size opt_size size with
  | .error e => .error e
  | .ok size =>
    match check_unit opt_unit size unit with
    | .error e => .error e
    | .ok unit =>
      match check_num opt_num num with
      | .error e => .error e
      | .ok num => .ok (size, num, unit)

/-! ## The standard-id validator of `v4l2_validator.c` -/

/-- The values of the 26 `V4L2_STD_*` macros that `valid_v4l2_std_id` names,
in the order it names them. They are declared in `linux/videodev2.h`, a
kernel header that is not among the sources, so the validator takes them
as a parameter. -/
structure v4l2_std where
  V4L2_STD_PAL_B : Nat
  V4L2_STD_PAL_B1 : Nat
  V4L2_STD_PAL_G : Nat
  V4L2_STD_PAL_H : Nat
  V4L2_STD_PAL_I : Nat
  V4L2_STD_PAL_D : Nat
  V4L2_STD_PAL_D1 : Nat
  V4L2_STD_PAL_K : Nat
  V4L2_STD_PAL_M : Nat
  V4L2_STD_PAL_N : Nat
  V4L2_STD_PAL_Nc : Nat
  V4L2_STD_PAL_60 : Nat
  V4L2_STD_NTSC_M : Nat
  V4L2_STD_NTSC_M_JP : Nat
  V4L2_STD_NTSC_443 : Nat
  V4L2_STD_NTSC_M_KR : Nat
  V4L2_STD_SECAM_B : Nat
  V4L2_STD_SECAM_D : Nat
  V4L2_STD_SECAM_G : Nat
  V4L2_STD_SECAM_H : Nat
  V4L2_STD_SECAM_K : Nat
  V4L2_STD_SECAM_K1 : Nat
  V4L2_STD_SECAM_L : Nat
  V4L2_STD_SECAM_LC : Nat
  V4L2_STD_ATSC_8_VSB : Nat
  V4L2_STD_ATSC_16_VSB : Nat
deriving DecidableEq, Repr

/-- Modelled from the spec: the values the `V4L2_STD_*` macros have in the
kernel header `linux/videodev2.h`, which is not among the sources. Each
standard is one bit, bits 0 to 25, in the order in which the validator
lists them. -/
def kernel_std : v4l2_std :=
  { V4L2_STD_PAL_B := 0x00000001
    V4L2_STD_PAL_B1 := 0x00000002
    V4L2_STD_PAL_G := 0x00000004
    V4L2_STD_PAL_H := 0x00000008
    V4L2_STD_PAL_I := 0x00000010
    V4L2_STD_PAL_D := 0x00000020
    V4L2_STD_PAL_D1 := 0x00000040
    V4L2_STD_PAL_K := 0x00000080
    V4L2_STD_PAL_M := 0x00000100
    V4L2_STD_PAL_N := 0x00000200
    V4L2_STD_PAL_Nc := 0x00000400
    V4L2_STD_PAL_60 := 0x00000800
    V4L2_STD_NTSC_M := 0x00001000
    V4L2_STD_NTSC_M_JP := 0x00002000
    V4L2_STD_NTSC_443 := 0x00004000
    V4L2_STD_NTSC_M_KR := 0x00008000
    V4L2_STD_SECAM_B := 0x00010000
    V4L2_STD_SECAM_D := 0x00020000
    V4L2_STD_SECAM_G := 0x00040000
    V4L2_STD_SECAM_H := 0x00080000
    V4L2_STD_SECAM_K := 0x00100000
    V4L2_STD_SECAM_K1 := 0x00200000
    V4L2_STD_SECAM_L := 0x00400000
    V4L2_STD_SECAM_LC := 0x00800000
    V4L2_STD_ATSC_8_VSB := 0x01000000
    V4L2_STD_ATSC_16_VSB := 0x02000000 }

/-- The operator `~` on the 64-bit type `v4l2_std_id` (`__u64`). -/
def not64 (x : Nat) : Nat := 2 ^ 64 - 1 - x % 2 ^ 64

/-- The 26 standards `valid_v4l2_std_id` lists, in its order: 12 PAL, 4 NTSC,
8 SECAM and 2 ATSC. -/
def listed_standards (c : v4l2_std) : List Nat :=
  [c.V4L2_STD_PAL_B, c.V4L2_STD_PAL_B1, c.V4L2_STD_PAL_G, c.V4L2_STD_PAL_H,
    c.V4L2_STD_PAL_I, c.V4L2_STD_PAL_D, c.V4L2_STD_PAL_D1, c.V4L2_STD_PAL_K,
    c.V4L2_STD_PAL_M, c.V4L2_STD_PAL_N, c.V4L2_STD_PAL_Nc, c.V4L2_STD_PAL_60,
    c.V4L2_STD_NTSC_M, c.V4L2_STD_NTSC_M_JP, c.V4L2_STD_NTSC_443, c.V4L2_STD_NTSC_M_KR,
    c.V4L2_STD_SECAM_B, c.V4L2_STD_SECAM_D, c.V4L2_STD_SECAM_G, c.V4L2_STD_SECAM_H,
    c.V4L2_STD_SECAM_K, c.V4L2_STD_SECAM_K1, c.V4L2_STD_SECAM_L, c.V4L2_STD_SECAM_LC,
    c.V4L2_STD_ATSC_8_VSB, c.V4L2_STD_ATSC_16_VSB]

/-- The operand of `~` in `valid_v4l2_std_id` (v4l2_validator.c 30-55): the
bitwise or of the 26 listed standards. -/
def std_union (c : v4l2_std) : Nat :=
  c.V4L2_STD_PAL_B ||| c.V4L2_STD_PAL_B1 ||| c.V4L2_STD_PAL_G ||| c.V4L2_STD_PAL_H |||
    c.V4L2_STD_PAL_I ||| c.V4L2_STD_PAL_D ||| c.V4L2_STD_PAL_D1 ||| c.V4L2_STD_PAL_K |||
    c.V4L2_STD_PAL_M ||| c.V4L2_STD_PAL_N ||| c.V4L2_STD_PAL_Nc ||| c.V4L2_STD_PAL_60 |||
    c.V4L2_STD_NTSC_M ||| c.V4L2_STD_NTSC_M_JP ||| c.V4L2_STD_NTSC_443 |||
    c.V4L2_STD_NTSC_M_KR ||| c.V4L2_STD_SECAM_B ||| c.V4L2_STD_SECAM_D |||
    c.V4L2_STD_SECAM_G ||| c.V4L2_STD_SECAM_H ||| c.V4L2_STD_SECAM_K |||
    c.V4L2_STD_SECAM_K1 ||| c.V4L2_STD_SECAM_L ||| c.V4L2_STD_SECAM_LC |||
    c.V4L2_STD_ATSC_8_VSB ||| c.V4L2_STD_ATSC_16_VSB

/-- The function `valid_v4l2_std_id` (v4l2_validator.c 27-62) on a 64-bit
`std_id`, that is `std_id < 2^64`. -/
def valid_v4l2_std_id (c : v4l2_std) (std_id : Nat) : Int :=
  if std_id &&& not64 (std_union c) = 0 then 1 else 0

/-! ## The stop/continue protocol between the parent and its children -/

/-- Whether a statement of the parent is a barrier or a resume. -/
def Step.is_barrier_op : Step → Bool
  | .stop_ksm_children => true
  | .resume_ksm_children => true
  | _ => false

/-- How the parent's `waitpid` finds a child. -/
inductive ChildState where
  | running
  | stopped
  | exited
deriving DecidableEq, Repr

/-- A signal in the life of one child: `stop k` is its own `k`-th
`raise(SIGSTOP)`, `cont k` the SIGCONT that the parent's `k`-th
`resume_ksm_children` sends it while it is stopped. -/
inductive Signal where
  | stop (k : Nat)
  | cont (k : Nat)
deriving DecidableEq, Repr

/-- A forked child as the parent deals with it: its state, the events of
`create_ksm_child` it has still to go through, the number of times it has
stopped itself, and its signals so far, oldest first. -/
structure Child where
  state : ChildState
  todo : List ChildEvent
  stops : Nat
  signals : List Signal
deriving DecidableEq, Repr

/-- How a run of the parent can end before its last statement. -/
inductive Stuck where
  | TBROK
  | blocked
deriving DecidableEq, Repr

/-- A running child goes on until its next `raise(SIGSTOP)`: what it has
still to do after that stop, or `none` if it ends without stopping. -/
def run_child : List ChildEvent → Option (List ChildEvent)
  | [] => none
  | .raise_SIGSTOP :: rest => some rest
  | .tfail _ :: rest => run_child rest

/-- The body of the loop of `stop_ksm_children` (mem.c 331-334) for one
child: `waitpid(child[k], &status, WUNTRACED)` returns when the child has
stopped itself or has ended; a child that has not stopped is a TBROK. A
child whose stop was already waited for and that nobody continued makes
`waitpid` wait for ever. -/
def wait_stopped (c : Child) : Except Stuck Child :=
  match c.state with
  | .running =>
    match run_child c.todo with
    | some rest =>
      .ok ⟨.stopped, rest, c.stops + 1, c.signals ++ [.stop (c.stops + 1)]⟩
    | none => .error .TBROK
  | .stopped => .error .blocked
  | .exited => .error .TBROK

/-- The function `stop_ksm_children` (mem.c 325-336) over the children in
the order of `child[]`. -/
def stop_ksm_children : List Child → Except Stuck (List Child)
  | [] => .ok []
  | c :: cs =>
    match wait_stopped c with
    | .error e => .error e
    | .ok c' =>
      match stop_ksm_children cs with
      | .error e => .error e
      | .ok cs' => .ok (c' :: cs')

/-- The `kill(child[k], SIGCONT)` of `resume_ksm_children` for one child, in
the parent's `r`-th call: a stopped child runs again; on a child that is
not stopped the signal changes nothing. -/
def send_SIGCONT (r : Nat) (c : Child) : Child :=
  match c.state with
  | .stopped => ⟨.running, c.todo, c.stops, c.signals ++ [.cont r]⟩
  | _ => c

/-- The function `resume_ksm_children` (mem.c 338-348), as the parent's
`r`-th call of it. -/
def resume_ksm_children (r : Nat) (cs : List Child) : List Child :=
  cs.map (send_SIGCONT r)

/-- The reaping of one child by the loop `while (waitpid(-1, ...) > 0)`
(mem.c 444-447): a running child with no stop left ends and is reaped; a
child that is stopped, or stops itself once more, is never continued and
the loop waits for ever. -/
def reap_child (c : Child) : Except Stuck Child :=
  match c.state with
  | .running =>
    match run_child c.todo with
    | some _ => .error .blocked
    | none => .ok ⟨.exited, [], c.stops, c.signals⟩
  | .stopped => .error .blocked
  | .exited => .ok c

/-- The reaping loop over all children. -/
def reap_children : List Child → Except Stuck (List Child)
  | [] => .ok []
  | c :: cs =>
    match reap_child c with
    | .error e => .error e
    | .ok c' =>
      match reap_children cs with
      | .error e => .error e
      | .ok cs' => .ok (c' :: cs')

/-- The fork loop of `create_same_memory` (mem.c 387-407): child `i` runs
`create_ksm_child(i, size, unit, table of i)` in its own address space
`env i`, on the memory `memory i` its `mmap` calls return; the parent sees
its events. -/
def fork_children (env : Nat → Env) (size num : Nat) (unit : Int) (memory : Nat → Memory) :
    List Child :=
  (List.range num).map fun i =>
    ⟨.running, (create_ksm_child (env i) i size unit (child_data size i) (memory i)).events,
      0, []⟩

/-- The parent's statements run against its children. `r` counts the calls
of `resume_ksm_children` made so far; writes and `_group_check` calls do
not signal the children. -/
def run_parent : List Step → Nat → List Child → Except Stuck (Nat × List Child)
  | [], r, cs => .ok (r, cs)
  | .stop_ksm_children :: rest, r, cs =>
    match stop_ksm_children cs with
    | .error e => .error e
    | .ok cs' => run_parent rest r cs'
  | .resume_ksm_children :: rest, r, cs =>
    run_parent rest (r + 1) (resume_ksm_children (r + 1) cs)
  | .write_file _ _ :: rest, r, cs => run_parent rest r cs
  | .group_check _ :: rest, r, cs => run_parent rest r cs
  | .reap :: rest, r, cs =>
    match reap_children cs with
    | .error e => .error e
    | .ok cs' => run_parent rest r cs'

/-! ### Lemmas on the fill loops and on `_verify` -/

theorem MB_pos : 0 < MB := by decide

theorem store_apply (memory : Memory) (j i : Nat) (c : Char) (j' i' : Nat) :
    store memory j i c j' i' = if j' = j ∧ i' = i then c else memory j' i' := rfl

theorem fill_unit_apply (data : Char) (j n : Nat) (memory : Memory) (j' i' : Nat) :
    fill_unit data j n memory j' i' = if j' = j ∧ i' < n then data else memory j' i' := by
  induction n with
  | zero => simp [fill_unit]
  | succ n ih =>
    simp only [fill_unit, store_apply, ih]
    by_cases hj : j' = j
    · by_cases h1 : i' = n
      · simp [hj, h1]
      · by_cases h2 : i' < n
        · have : i' < n + 1 := by omega
          simp [hj, h1, h2, this]
        · have : ¬ i' < n + 1 := by omega
          simp [hj, h1, h2, this]
    · simp [hj]

theorem fill_units_apply (data : Char) (len t : Nat) (memory : Memory) (j' i' : Nat) :
    fill_units data len t memory j' i' =
      if j' < t ∧ i' < len then data else memory j' i' := by
  induction t with
  | zero => simp [fill_units]
  | succ t ih =>
    simp only [fill_units, fill_unit_apply, ih]
    by_cases h1 : j' = t
    · by_cases h2 : i' < len
      · have : j' < t + 1 := by omega
        simp [h1, h2]
      · simp [h1, h2]
    · by_cases h2 : j' < t
      · have : j' < t + 1 := by omega
        simp [h1, h2, this]
      · have : ¬ j' < t + 1 := by omega
        simp [h1, h2, this]

theorem memcmp_from_eq_some_false_iff (r : Nat → Bool) (p s : Nat → Char) (m k : Nat) :
    memcmp_from r p s m k = some false ↔
      ∀ i, i < m → r (k + i) = true ∧ p (k + i) = s (k + i) := by
  induction m generalizing k with
  | zero => simp [memcmp_from]
  | succ m ih =>
    simp only [memcmp_from]
    by_cases hr : r k = true
    · by_cases hp : p k = s k
      · simp only [hr, hp, if_true, bne_self_eq_false, Bool.false_eq_true, if_false, ih]
        constructor
        · intro h i hi
          cases i with
          | zero => exact ⟨hr, hp⟩
          | succ i =>
            have := h i (by omega)
            rwa [Nat.add_assoc, Nat.add_comm 1 i] at this
        · intro h i hi
          have := h (i + 1) (by omega)
          rwa [Nat.add_assoc, Nat.add_comm 1 i]
      · have hne : (p k != s k) = true := by simpa using hp
        simp only [hr, hne, if_true]
        constructor
        · intro h
          cases h
        · intro h
          exact absurd (h 0 (by omega)).2 hp
    · simp only [hr, if_false]
      constructor
      · intro h
        cases h
      · intro h
        exact absurd (h 0 (by omega)).1 hr

theorem memcmp_from_eq_none_iff (r : Nat → Bool) (p s : Nat → Char) (m k : Nat) :
    memcmp_from r p s m k = none ↔
      ∃ i, i < m ∧ r (k + i) = false ∧
        ∀ i', i' < i → r (k + i') = true ∧ p (k + i') = s (k + i') := by
  induction m generalizing k with
  | zero => simp [memcmp_from]
  | succ m ih =>
    simp only [memcmp_from]
    by_cases hr : r k = true
    · by_cases hp : p k = s k
      · simp only [hr, hp, if_true, bne_self_eq_false, Bool.false_eq_true, if_false, ih]
        constructor
        · rintro ⟨i, hi, hri, hbefore⟩
          refine ⟨i + 1, by omega, by rwa [Nat.add_assoc, Nat.add_comm 1 i] at hri, ?_⟩
          intro i' hi'
          cases i' with
          | zero => exact ⟨hr, hp⟩
          | succ i' =>
            have := hbefore i' (by omega)
            rwa [Nat.add_assoc, Nat.add_comm 1 i'] at this
        · rintro ⟨i, hi, hri, hbefore⟩
          cases i with
          | zero =>
            rw [Nat.add_zero, hr] at hri
            cases hri
          | succ i =>
            refine ⟨i, by omega, by rwa [Nat.add_assoc, Nat.add_comm 1 i], ?_⟩
            intro i' hi'
            have := hbefore (i' + 1) (by omega)
            rwa [Nat.add_assoc, Nat.add_comm 1 i']
      · have hne : (p k != s k) = true := by simpa using hp
        simp only [hr, hne, if_true]
        constructor
        · intro h
          cases h
        · rintro ⟨i, hi, hri, hbefore⟩
          cases i with
          | zero =>
            rw [Nat.add_zero, hr] at hri
            cases hri
          | succ i => exact absurd (hbefore 0 (by omega)).2 hp
    · have hr' : r k = false := by simpa using hr
      simp only [hr', Bool.false_eq_true, if_false, true_iff]
      exact ⟨0, by omega, by simpa using hr', fun i' hi' => by omega⟩

/-- In bounds `memcmp` returns, and says whether all bytes are equal. -/
theorem memcmp_ne_of_readable (r : Nat → Bool) (p s : Nat → Char) (n : Nat)
    (hr : ∀ k, k < n → r k = true) :
    memcmp_ne r p s n = some (decide (∃ k, k < n ∧ p k ≠ s k)) := by
  unfold memcmp_ne
  cases h : memcmp_from r p s n 0 with
  | none =>
    obtain ⟨i, hi, hri, _⟩ := (memcmp_from_eq_none_iff r p s n 0).1 h
    rw [Nat.zero_add, hr i hi] at hri
    cases hri
  | some b =>
    cases b with
    | false =>
      have := (memcmp_from_eq_some_false_iff r p s n 0).1 h
      have hall : ¬ ∃ k, k < n ∧ p k ≠ s k := by
        rintro ⟨k, hk, hne⟩
        have := (this k hk).2
        rw [Nat.zero_add] at this
        exact hne this
      simp [hall]
    | true =>
      have hex : ∃ k, k < n ∧ p k ≠ s k := by
        by_contra hno
        have : memcmp_from r p s n 0 = some false := by
          rw [memcmp_from_eq_some_false_iff]
          intro i hi
          rw [Nat.zero_add]
          refine ⟨hr i hi, ?_⟩
          by_contra hne
          exact hno ⟨i, hi, hne⟩
        rw [this] at h
        cases h
      simp [hex]

/-- A `memcmp` that finds `k` equal mapped bytes and then an address that is
not mapped is a SIGSEGV. -/
theorem memcmp_ne_none (r : Nat → Bool) (p s : Nat → Char) (n k : Nat) (hk : k < n)
    (hbefore : ∀ i, i < k → r i = true ∧ p i = s i) (hun : r k = false) :
    memcmp_ne r p s n = none := by
  unfold memcmp_ne
  rw [memcmp_from_eq_none_iff]
  refine ⟨k, hk, by rwa [Nat.zero_add], fun i hi => ?_⟩
  rw [Nat.zero_add]
  exact hbefore i hi

theorem to_size_t_to_int (x : Nat) (hx : x < 2147483648) :
    to_size_t (to_int (x : Int)) = x := by
  unfold to_size_t to_int
  omega

/-- The byte count of `_verify` for ranges in order and a product that fits
an `int`. -/
theorem verify_count (start end_ start2 end2 : Nat) (h1 : start ≤ end_) (h2 : start2 ≤ end2)
    (hx : (end_ - start) * (end2 - start2) < 2147483648) :
    to_size_t (to_int (((end_ : Int) - (start : Int)) * ((end2 : Int) - (start2 : Int)))) =
      (end_ - start) * (end2 - start2) := by
  have e : ((end_ : Int) - (start : Int)) * ((end2 : Int) - (start2 : Int)) =
      (((end_ - start) * (end2 - start2) : Nat) : Int) := by
    push_cast [Nat.cast_sub h1, Nat.cast_sub h2]
    ring
  rw [e, to_size_t_to_int _ hx]

/-- The call `_verify` when `malloc` gives a buffer of `n` bytes and the `n`
bytes at `memory[start]` are mapped: it returns, and prints the mismatches
of its range exactly when those `n` bytes are not all the value. -/
theorem verify_of_readable (env : Env) (memory : Memory) (value : Char)
    (proc start end_ start2 end2 n : Nat)
    (hn : to_size_t (to_int (((end_ : Int) - (start : Int)) *
      ((end2 : Int) - (start2 : Int)))) = n)
    (hmalloc : env.malloc n = true) (hr : ∀ k, k < n → env.mapped start k = true) :
    (_verify env memory value proc start end_ start2 end2).ending = .returned ∧
      ((∃ k, k < n ∧ memory start k ≠ value) →
        ∀ j i, start ≤ j → j < end_ → start2 ≤ i → i < end2 → memory j i ≠ value →
          (⟨proc, memory j i, j, i⟩ : VerifyFail) ∈
            (_verify env memory value proc start end_ start2 end2).fails) := by
  unfold _verify
  simp only [hn, hmalloc, if_true, memcmp_ne_of_readable _ _ _ n hr]
  by_cases hex : ∃ k, k < n ∧ memory start k ≠ value
  · simp only [hex, decide_True, true_and, forall_true_left]
    intro j i hj1 hj2 hi1 hi2 hne
    simp only [List.mem_flatMap, List.mem_filterMap, List.mem_range'_1]
    exact ⟨j, ⟨hj1, by omega⟩, i, ⟨hi1, by omega⟩, by simp [hne]⟩
  · simp [hex]

/-- The call `_verify` when `malloc` gives a buffer of `n` bytes and, after
`k < n` mapped bytes that all have the value, the address `memory[start] + k`
is not mapped: the child is killed before it prints anything. -/
theorem verify_sigsegv (env : Env) (memory : Memory) (value : Char)
    (proc start end_ start2 end2 n k : Nat)
    (hn : to_size_t (to_int (((end_ : Int) - (start : Int)) *
      ((end2 : Int) - (start2 : Int)))) = n)
    (hmalloc : env.malloc n = true) (hk : k < n)
    (hbefore : ∀ i, i < k → env.mapped start i = true ∧ memory start i = value)
    (hun : env.mapped start k = false) :
    _verify env memory value proc start end_ start2 end2 = ⟨[], .SIGSEGV⟩ := by
  unfold _verify
  simp only [hn, hmalloc, if_true, memcmp_ne_none _ _ _ n k hk hbefore hun]

theorem units_div (size unit : Nat) (hsize : 1 ≤ size) (hdvd : unit ∣ size) :
    size / (size / unit) = unit :=
  Nat.div_div_self hdvd (by omega)

theorem unit_len_pos (unit : Nat) (hunit : 1 ≤ unit) : 1 ≤ unit * MB :=
  Nat.mul_pos hunit MB_pos

/-- The fill leaves the expected content in every byte of every unit. -/
theorem ksm_child_memset_apply (child size unit : Nat) (d : ksm_merge_data)
    (memory : Memory) (hsize : 1 ≤ size) (_hunit : 1 ≤ unit) (hdvd : unit ∣ size)
    (j i : Nat) (hj : j < size / unit) (hi : i < unit * MB) :
    ksm_child_memset child size (size / unit) d memory j i = expected_byte size unit d j i := by
  unfold ksm_child_memset expected_byte
  simp only [units_div size unit hsize hdvd]
  by_cases hm : d.mergeable_size < size * MB
  · simp only [hm, if_true, store_apply, fill_units_apply, true_and]
    by_cases hl : j = size / unit - 1 ∧ i = unit * MB - 1
    · simp [hl]
    · simp [hl, hj, hi]
  · simp [hm, fill_units_apply, hj, hi]

/-- C1: for size >= 1 and unit >= 1 dividing size, any pattern and any
initial content, after `ksm_child_memset(child, size, size/unit, pattern,
memory)` every byte of every unit is the fill byte, except that with
`mergeable_size < size*MB` the last byte of the last unit is `'e'`; with
`mergeable_size == size*MB` a byte is `'e'` only if the fill byte is. -/
theorem ksm_child_memset_content (child size unit : Nat) (d : ksm_merge_data)
    (memory : Memory) (hsize : 1 ≤ size) (hunit : 1 ≤ unit) (hdvd : unit ∣ size) :
    (∀ j i, j < size / unit → i < unit * MB →
      ksm_child_memset child size (size / unit) d memory j i =
        if d.mergeable_size < size * MB ∧ j = size / unit - 1 ∧ i = unit * MB - 1
        then 'e' else d.data) ∧
    (d.mergeable_size = size * MB → ∀ j i, j < size / unit → i < unit * MB →
      ksm_child_memset child size (size / unit) d memory j i = 'e' → d.data = 'e') := by
  refine ⟨fun j i hj hi => ?_, fun hm j i hj hi he => ?_⟩
  · exact ksm_child_memset_apply child size unit d memory hsize hunit hdvd j i hj hi
  · rw [ksm_child_memset_apply child size unit d memory hsize hunit hdvd j i hj hi] at he
    have hlt : ¬ d.mergeable_size < size * MB := by omega
    simpa [expected_byte, hlt] using he

/-- C1 at size 2, unit 1, pattern `{'d', 2*MB - 1}` and a memory of `'x'`. -/
theorem ksm_child_memset_content_witness :
    1 ≤ 2 ∧ 1 ∣ 2 ∧
      ksm_child_memset 1 2 (2 / 1) ⟨'d', 2 * MB - 1⟩ (fun _ _ => 'x') 1 (1 * MB - 1) = 'e' ∧
      ksm_child_memset 1 2 (2 / 1) ⟨'d', 2 * MB - 1⟩ (fun _ _ => 'x') 0 (1 * MB - 1) = 'd' := by
  have h := (ksm_child_memset_content 1 2 1 ⟨'d', 2 * MB - 1⟩ (fun _ _ => 'x')
    (by decide) (by decide) (by decide)).1
  refine ⟨by decide, by decide, ?_, ?_⟩
  · rw [h 1 (1 * MB - 1) (by decide) (by decide)]
    decide
  · rw [h 0 (1 * MB - 1) (by decide) (by decide)]
    decide

/-- With one unit (`size = unit`), a byte count that fits an `int`, a
`malloc` that succeeds and the unit mapped, the checks of a round read
inside the unit and return, whatever the memory holds. -/
theorem post_round_verify_one_unit_returns (env : Env) (child size : Nat)
    (d : ksm_merge_data) (memory : Memory) (hsize : 1 ≤ size)
    (hint : size * MB < 2147483648) (hmalloc : ∀ n, env.malloc n = true)
    (hmapped : ∀ i, i < size * MB → env.mapped 0 i = true) :
    (post_round_verify env child size size d memory).ending = .returned := by
  have hMB := MB_pos
  have hpos : 1 ≤ size * MB := Nat.mul_pos hsize hMB
  have htu : size / size = 1 := Nat.div_self hsize
  unfold post_round_verify
  simp only [htu]
  have e1 : (_verify env memory 'e' child (1 - 1) 1 (size * MB - 1) (size * MB)).ending =
      .returned := by
    refine (verify_of_readable env memory 'e' child (1 - 1) 1 (size * MB - 1) (size * MB) 1
      ?_ (hmalloc 1) ?_).1
    · rw [verify_count _ _ _ _ (by omega) (by omega)]
      · have : size * MB - (size * MB - 1) = 1 := by omega
        rw [this]
      · have : size * MB - (size * MB - 1) = 1 := by omega
        rw [this]
        decide
    · intro k hk
      exact hmapped k (by omega)
  have e2 : (_verify env memory d.data child 0 1 0 (size * MB - 1)).ending = .returned := by
    refine (verify_of_readable env memory d.data child 0 1 0 (size * MB - 1)
      (size * MB - 1) ?_ (hmalloc _) ?_).1
    · rw [verify_count _ _ _ _ (by omega) (by omega)]
      · simp
      · simp only [Nat.sub_zero, Nat.one_mul]
        omega
    · intro k hk
      exact hmapped k (by omega)
  have e3 : (_verify env memory d.data child 0 1 0 (size * MB)).ending = .returned := by
    refine (verify_of_readable env memory d.data child 0 1 0 (size * MB)
      (size * MB) ?_ (hmalloc _) ?_).1
    · rw [verify_count _ _ _ _ (by omega) (by omega)]
      · simp
      · simp only [Nat.sub_zero, Nat.one_mul]
        omega
    · intro k hk
      exact hmapped k hk
  split_ifs
  · simp only [Nat.sub_self] at e1 ⊢
    rw [e1]
    exact e2
  · exact e3

/-- With two units or more and no mapping right after unit 0, the full-range
check of a round on correctly filled memory runs `memcmp` through unit 0
and off its end: the child is killed by SIGSEGV, having printed nothing. -/
theorem post_round_verify_memset_sigsegv (env : Env) (child size unit : Nat)
    (d : ksm_merge_data) (memory : Memory) (hsize : 1 ≤ size) (hunit : 1 ≤ unit)
    (hdvd : unit ∣ size) (htwo : 2 ≤ size / unit) (hfull : ¬ d.mergeable_size < size * MB)
    (hint : size * MB < 2147483648) (hmalloc : ∀ n, env.malloc n = true)
    (hmapped : ∀ i, i < unit * MB → env.mapped 0 i = true)
    (hgap : env.mapped 0 (unit * MB) = false) :
    post_round_verify env child size unit d
      (ksm_child_memset child size (size / unit) d memory) = ⟨[], .SIGSEGV⟩ := by
  have happ := ksm_child_memset_apply child size unit d memory hsize hunit hdvd
  have hlen := unit_len_pos unit hunit
  have hprod : size / unit * (unit * MB) = size * MB := by
    rw [← Nat.mul_assoc, Nat.div_mul_cancel hdvd]
  unfold post_round_verify
  simp only [hfull, if_false]
  refine verify_sigsegv env _ d.data child 0 (size / unit) 0 (unit * MB) (size * MB)
    (unit * MB) ?_ (hmalloc _) ?_ ?_ hgap
  · rw [verify_count _ _ _ _ (by omega) (by omega)]
    · simpa using hprod
    · simp only [Nat.sub_zero, hprod]
      exact hint
  · rw [← hprod]
    calc unit * MB = 1 * (unit * MB) := (Nat.one_mul _).symm
      _ < size / unit * (unit * MB) := Nat.mul_lt_mul_of_pos_right (by omega) (by omega)
  · intro i hi
    refine ⟨hmapped i hi, ?_⟩
    rw [happ 0 i (by omega) hi]
    simp [expected_byte, hfull]

/-- C3: at the call `_verify(memory, 'e', 1, 0, 1, MB-1, MB)` that
`create_ksm_child` makes for size = unit = 1, on a mapped unit that starts
with `'e'` and holds `'d'` everywhere else, the byte in the range,
`memory[0][MB-1]`, is `'d'` and not `'e'`, yet `_verify` returns having
printed nothing: its `memcmp` looks at `memory[0][0]`, finds `'e'` and skips
the loops. -/
theorem verify_skips_mismatch_in_range :
    (fun (_ i : Nat) => if i = 0 then 'e' else 'd') 0 (MB - 1) ≠ 'e' ∧
      _verify ⟨fun _ i => decide (i < MB), fun _ => true, fun _ => true⟩
        (fun _ i => if i = 0 then 'e' else 'd') 'e' 1 0 1 (MB - 1) MB = ⟨[], .returned⟩ := by
  refine ⟨by decide, ?_⟩
  decide

/-- With one unit, a fill byte other than `'e'` (as in every table of
`create_same_memory`), a byte count that fits an `int`, a `malloc` that
succeeds and the unit mapped, the checks of a round are complete: if some
byte differs from the expected content, a TFAIL line is printed. -/
theorem post_round_verify_complete_one_unit (env : Env) (child size : Nat)
    (d : ksm_merge_data) (memory : Memory) (hsize : 1 ≤ size)
    (hint : size * MB < 2147483648) (hmalloc : ∀ n, env.malloc n = true)
    (hmapped : ∀ i, i < size * MB → env.mapped 0 i = true) (hdata : d.data ≠ 'e')
    (hdiff : ∃ i, i < size * MB ∧ memory 0 i ≠ expected_byte size size d 0 i) :
    (post_round_verify env child size size d memory).fails ≠ [] := by
  have hMB : 2 ≤ MB := by decide
  have hpos : 2 ≤ size * MB := by
    calc 2 = 1 * 2 := rfl
      _ ≤ size * MB := Nat.mul_le_mul hsize hMB
  have htu : size / size = 1 := Nat.div_self hsize
  obtain ⟨i, hi, hne⟩ := hdiff
  have v1 := verify_of_readable env memory 'e' child (1 - 1) 1 (size * MB - 1) (size * MB) 1
    (by
      rw [verify_count _ _ _ _ (by omega) (by omega)]
      · have : size * MB - (size * MB - 1) = 1 := by omega
        rw [this]
      · have : size * MB - (size * MB - 1) = 1 := by omega
        rw [this]
        decide)
    (hmalloc 1) (fun k hk => hmapped k (by omega))
  have v2 := verify_of_readable env memory d.data child 0 1 0 (size * MB - 1) (size * MB - 1)
    (by
      rw [verify_count _ _ _ _ (by omega) (by omega)]
      · simp
      · simp only [Nat.sub_zero, Nat.one_mul]
        omega)
    (hmalloc _) (fun k hk => hmapped k (by omega))
  have v3 := verify_of_readable env memory d.data child 0 1 0 (size * MB) (size * MB)
    (by
      rw [verify_count _ _ _ _ (by omega) (by omega)]
      · simp
      · simp only [Nat.sub_zero, Nat.one_mul]
        omega)
    (hmalloc _) (fun k hk => hmapped k hk)
  simp only [Nat.sub_self] at v1
  unfold post_round_verify
  simp only [htu, Nat.sub_self]
  by_cases hm : d.mergeable_size < size * MB
  · simp only [hm, if_true, v1.1]
    intro hnil
    obtain ⟨h1, h2⟩ := List.append_eq_nil.1 hnil
    by_cases hlast : i = size * MB - 1
    · have hne' : memory 0 (size * MB - 1) ≠ 'e' := by
        have := hne
        rw [hlast] at this
        simpa [expected_byte, hm, htu] using this
      by_cases h00 : memory 0 0 = 'e'
      · have hmem := v2.2 ⟨0, by omega, by rw [h00]; exact fun h => hdata h.symm⟩ 0 0
          (Nat.le_refl 0) (by omega) (Nat.le_refl 0) (by omega)
          (by rw [h00]; exact fun h => hdata h.symm)
        rw [h2] at hmem
        cases hmem
      · have hmem := v1.2 ⟨0, by omega, h00⟩ 0 (size * MB - 1) (Nat.le_refl 0) (by omega)
          (Nat.le_refl _) (by omega) hne'
        rw [h1] at hmem
        cases hmem
    · have hne' : memory 0 i ≠ d.data := by
        simpa [expected_byte, hlast] using hne
      have hmem := v2.2 ⟨i, by omega, hne'⟩ 0 i (Nat.le_refl 0) (by omega) (Nat.zero_le _)
        (by omega) hne'
      rw [h2] at hmem
      cases hmem
  · simp only [hm, if_false]
    intro hnil
    have hne' : memory 0 i ≠ d.data := by
      simpa [expected_byte, hm] using hne
    have hmem := v3.2 ⟨i, hi, hne'⟩ 0 i (Nat.le_refl 0) (by omega) (Nat.zero_le _) hi hne'
    rw [hnil] at hmem
    cases hmem

/-- C4: for size 4 and unit 2 (two units), the first pattern `{'c', 4*MB}` of
`ksm_data0`, units that are each mapped for their 2 MB with nothing mapped
right after unit 0, and a memory that holds `'c'` everywhere but `'x'` at
`memory[1][0]`: a byte differs from the round's expected content, yet the
post-round verification of `create_ksm_child` prints no TFAIL line. Its
`memcmp` is asked for 4 MB from `memory[0]`, finds the 2 MB of unit 0 equal,
reads on past the unit and the child is killed by SIGSEGV. -/
theorem post_round_verify_killed_before_report :
    (child_data 4 0).head? = some ⟨'c', 4 * MB⟩ ∧
      (1 < 4 / 2 ∧ 0 < 2 * MB ∧
        (fun (j i : Nat) => if j = 1 ∧ i = 0 then 'x' else 'c') 1 0 ≠
          expected_byte 4 2 ⟨'c', 4 * MB⟩ 1 0) ∧
      post_round_verify ⟨fun _ i => decide (i < 2 * MB), fun _ => true, fun _ => true⟩ 0 4 2
        ⟨'c', 4 * MB⟩ (fun j i => if j = 1 ∧ i = 0 then 'x' else 'c') = ⟨[], .SIGSEGV⟩ := by
  refine ⟨by decide, ⟨by decide, by decide, by decide⟩, ?_⟩
  have hm : ¬ (ksm_merge_data.mk 'c' (4 * MB)).mergeable_size < 4 * MB := by decide
  unfold post_round_verify
  simp only [hm, if_false]
  refine verify_sigsegv _ _ 'c' 0 0 (4 / 2) 0 (2 * MB) (4 * MB) (2 * MB) (by decide) rfl
    (by decide) ?_ (by decide)
  intro i hi
  refine ⟨by simpa using hi, ?_⟩
  simp

/-! ## The parent's order of actions -/
theorem mem_wait_actions (polls : Nat) (a : Action) (h : a ∈ wait_actions polls) :
    a = .sleep ∨ ∃ path, a = .read_file path := by
  induction polls with
  | zero => simp [wait_actions] at h
  | succ n ih =>
    simp only [wait_actions, List.mem_append, List.mem_cons, List.mem_singleton,
      List.not_mem_nil, or_false] at h
    rcases h with (h | h | h | h | h) | h
    · exact Or.inl h
    · exact Or.inr ⟨_, h⟩
    · exact Or.inr ⟨_, h⟩
    · exact Or.inr ⟨_, h⟩
    · exact Or.inr ⟨_, h⟩
    · exact ih h

theorem mem_group_check_actions (polls : Nat) (a : Action)
    (h : a ∈ group_check_actions polls) : a = .sleep ∨ ∃ path, a = .read_file path := by
  simp only [group_check_actions, List.mem_append, List.mem_map] at h
  rcases h with h | ⟨path, _, h⟩
  · exact mem_wait_actions polls a h
  · exact Or.inr ⟨path, h.symm⟩

theorem with_state_quiet (st : Bool) (l rest : List Action)
    (h : ∀ a ∈ l, a = .sleep ∨ ∃ path, a = .read_file path) :
    with_state st (l ++ rest) = l.map (fun a => (a, st)) ++ with_state st rest := by
  induction l with
  | nil => simp
  | cons a l ih =>
    have ha : stopped_after st a = st := by
      rcases h a (List.mem_cons_self a l) with h1 | ⟨path, h1⟩ <;> subst h1 <;> rfl
    show with_state st (a :: (l ++ rest)) = _
    rw [with_state, ha, ih fun b hb => h b (List.mem_cons_of_mem a hb)]
    rfl

theorem with_state_group_check (st : Bool) (polls : Nat) (rest : List Action) :
    with_state st (group_check_actions polls ++ rest) =
      (group_check_actions polls).map (fun a => (a, st)) ++ with_state st rest :=
  with_state_quiet st _ rest (mem_group_check_actions polls)

/-- C5, counterexample: in the run for size 16, num 5, unit 4, 4096 byte
pages and one poll per wait, not every read or write of a KSM file happens
with all children stopped: the first read of `pages_shared` by
`_group_check` comes after `resume_ksm_children` and before the next
barrier. -/
theorem ksm_read_while_children_run :
    ¬ ∀ p ∈ parent_run (fun _ => 1) 16 5 4 4096, p.1.is_ksm_access = true → p.2 = true := by
  intro h
  have := h (Action.read_file KsmFile.pages_shared, false) (by decide) rfl
  exact Bool.noConfusion this

theorem with_phase_quiet (ph : Phase) (l rest : List Action)
    (h : ∀ a ∈ l, a = .sleep ∨ ∃ path, a = .read_file path) :
    with_phase ph (l ++ rest) = l.map (fun a => (a, ph)) ++ with_phase ph rest := by
  induction l with
  | nil => simp
  | cons a l ih =>
    have ha : phase_after ph a = ph := by
      rcases h a (List.mem_cons_self a l) with h1 | ⟨path, h1⟩ <;> subst h1 <;> rfl
    show with_phase ph (a :: (l ++ rest)) = _
    rw [with_phase, ha, ih fun b hb => h b (List.mem_cons_of_mem a hb)]
    rfl

theorem with_phase_group_check (ph : Phase) (polls : Nat) (rest : List Action) :
    with_phase ph (group_check_actions polls ++ rest) =
      (group_check_actions polls).map (fun a => (a, ph)) ++ with_phase ph rest :=
  with_phase_quiet ph _ rest (mem_group_check_actions polls)

/-- The barrier state of an action is read off its phase. -/
theorem with_state_eq_map_with_phase (ph : Phase) (l : List Action) :
    with_state ph.is_stopped l = (with_phase ph l).map (fun p => (p.1, p.2.is_stopped)) := by
  induction l generalizing ph with
  | nil => rfl
  | cons a l ih =>
    have ha : stopped_after ph.is_stopped a = (phase_after ph a).is_stopped := by
      cases a <;> cases ph <;> rfl
    rw [with_state, with_phase, ha, ih]
    rfl

theorem parent_run_eq_map_parent_phases (polls : Nat → Nat) (size num unit ps : Nat) :
    parent_run polls size num unit ps =
      (parent_phases polls size num unit ps).map (fun p => (p.1, p.2.is_stopped)) :=
  with_state_eq_map_with_phase .initial _

/-- C5, amended: in the parent's run of `create_same_memory`, whatever the
number of polls of each wait, every write of a KSM file other than the
final `run = 0` (that is `run = 1`, `pages_to_scan`, `sleep_millisecs` and
`run = 2`) happens after a `stop_ksm_children` barrier (the first or the
fifth) with no `resume_ksm_children` since; the write `run = 0` and every
read made by `_group_check` and `_wait_ksmd_done` happen after the
`resume_ksm_children` that followed the latest barrier (one of the five),
with no barrier since that resume, and none before the first barrier. The
phase of an action gives its barrier state in `parent_run`. -/
theorem ksm_access_barrier_state (polls : Nat → Nat) (size num unit ps : Nat)
    (p : Action × Phase) (hp : p ∈ parent_phases polls size num unit ps) :
    (p.1, p.2.is_stopped) ∈ parent_run polls size num unit ps ∧
    (∀ path value, p.1 = .write_file path value →
      (¬ (path = .run ∧ value = 0) → p.2 = .stopped 1 ∨ p.2 = .stopped 5) ∧
      (path = .run ∧ value = 0 → p.2 = .resumed 5)) ∧
    (∀ path, p.1 = .read_file path → ∃ k, 1 ≤ k ∧ k ≤ 5 ∧ p.2 = .resumed k) := by
  refine ⟨?_, ?_⟩
  · rw [parent_run_eq_map_parent_phases]
    exact List.mem_map_of_mem (fun p => (p.1, p.2.is_stopped)) hp
  unfold parent_phases create_same_memory at hp
  simp only [actions, with_phase, phase_after, Phase.barriers, with_phase_group_check,
    Nat.zero_add, Nat.reduceAdd,
    List.mem_append, List.mem_cons, List.mem_map, List.not_mem_nil, or_false] at hp
  refine ⟨fun path value hw => ?_, fun path hr => ?_⟩
  · rcases hp with hp | hp | hp | hp | hp | hp | hp | hp | hp | hp | hp | hp | hp | hp | hp | hp | hp | hp | hp | hp | hp | hp
    all_goals first
      | (obtain ⟨a, ha, rfl⟩ := hp
         rcases mem_group_check_actions _ a ha with h | ⟨q, h⟩ <;> subst h <;> cases hw)
      | (subst hp
         cases hw
         simp)
      | (subst hp
         cases hw)
  · rcases hp with hp | hp | hp | hp | hp | hp | hp | hp | hp | hp | hp | hp | hp | hp | hp | hp | hp | hp | hp | hp | hp | hp
    all_goals first
      | (obtain ⟨a, ha, rfl⟩ := hp
         exact ⟨_, by decide, by decide, rfl⟩)
      | (subst hp
         cases hr)

/-- C5 amended, at the write `run = 2` of the run for size 16, num 5, unit 4,
4096 byte pages and one poll per wait: it happens after the fifth barrier,
all children stopped. -/
theorem ksm_access_barrier_state_witness :
    (Action.write_file KsmFile.run 2, Phase.stopped 5) ∈
        parent_phases (fun _ => 1) 16 5 4 4096 ∧
      (Phase.stopped 5 = Phase.stopped 1 ∨ Phase.stopped 5 = Phase.stopped 5) :=
  ⟨by decide,
    ((ksm_access_barrier_state (fun _ => 1) 16 5 4 4096
      (Action.write_file KsmFile.run 2, Phase.stopped 5) (by decide)).2.1 KsmFile.run 2 rfl).1
      (by decide)⟩

/-! ## Option check -/

theorem check_ksm_options_ok_iff (s u n size num unit : Int) (hu : u ≠ 0) :
    check_ksm_options (some s) (some n) (some u) size num unit = .ok (s, n, u) ↔
      1 ≤ s ∧ u ≤ s ∧ Int.tmod s u = 0 ∧ 3 ≤ n := by
  unfold check_ksm_options check_size check_unit check_num
  by_cases h1 : s < 1
  · simp [h1]
  · by_cases h2 : u > s
    · simp [h1, h2]
    · by_cases h3 : Int.tmod s u = 0
      · by_cases h4 : n < 3
        · simp [h1, h2, hu, h3, h4]
        · simp [h1, h2, hu, h3, h4]
          omega
      · simp [h1, h2, hu, h3]

theorem check_ksm_options_brk (s u n size num unit : Int) (hu : u ≠ 0)
    (h : ¬ (1 ≤ s ∧ u ≤ s ∧ Int.tmod s u = 0 ∧ 3 ≤ n)) :
    ∃ msg, check_ksm_options (some s) (some n) (some u) size num unit =
      .error (.TBROK msg) := by
  unfold check_ksm_options check_size check_unit check_num
  by_cases h1 : s < 1
  · exact ⟨"size cannot be less than 1.", by simp [h1]⟩
  · by_cases h2 : u > s
    · exact ⟨"unit cannot be greater than size.", by simp [h1, h2]⟩
    · by_cases h3 : Int.tmod s u = 0
      · by_cases h4 : n < 3
        · exact ⟨"process number cannot be less 3.", by simp [h1, h2, hu, h3, h4]⟩
        · exact absurd ⟨by omega, by omega, h3, by omega⟩ h
      · exact ⟨"the remainder of division of size by unit is not zero.",
        by simp [h1, h2, hu, h3]⟩

/-- C6: with -s, -u and -n all given and parsed as s, u (u != 0) and n,
`check_ksm_options` returns, leaving size = s, unit = u and num = n, if and
only if s >= 1, u <= s, s mod u = 0 and n >= 3; in every other case it ends
the test with TBROK. The remainder is C's, and it is zero exactly when
Lean's `s % u` is. -/
theorem check_ksm_options_all_given (s u n size num unit : Int) (hu : u ≠ 0) :
    (check_ksm_options (some s) (some n) (some u) size num unit = .ok (s, n, u) ↔
      1 ≤ s ∧ u ≤ s ∧ Int.tmod s u = 0 ∧ 3 ≤ n) ∧
    (∀ r, check_ksm_options (some s) (some n) (some u) size num unit = .ok r →
      r = (s, n, u)) ∧
    (¬ (1 ≤ s ∧ u ≤ s ∧ Int.tmod s u = 0 ∧ 3 ≤ n) →
      ∃ msg, check_ksm_options (some s) (some n) (some u) size num unit =
        .error (.TBROK msg)) ∧
    (Int.tmod s u = 0 ↔ s % u = 0) := by
  refine ⟨check_ksm_options_ok_iff s u n size num unit hu, fun r hr => ?_,
    check_ksm_options_brk s u n size num unit hu, ?_⟩
  · by_cases h : 1 ≤ s ∧ u ≤ s ∧ Int.tmod s u = 0 ∧ 3 ≤ n
    · rw [(check_ksm_options_ok_iff s u n size num unit hu).2 h] at hr
      exact (Except.ok.inj hr).symm
    · obtain ⟨msg, hmsg⟩ := check_ksm_options_brk s u n size num unit hu h
      rw [hmsg] at hr
      cases hr
  · exact ⟨fun h => Int.emod_eq_zero_of_dvd (Int.dvd_of_tmod_eq_zero h),
      fun h => Int.tmod_eq_zero_of_dvd (Int.dvd_of_emod_eq_zero h)⟩

/-- C6 at -s 16 -u 4 -n 5 over the defaults 128, 3, 1. -/
theorem check_ksm_options_all_given_witness :
    (4 : Int) ≠ 0 ∧ check_ksm_options (some 16) (some 5) (some 4) 128 3 1 = .ok (16, 5, 4) :=
  ⟨by decide,
    ((check_ksm_options_all_given 16 4 5 128 3 1 (by decide)).1).2
      ⟨by decide, by decide, by decide, by decide⟩⟩

/-! ## Quiescence poll and oracle -/

theorem snapshot_ne_iff (a b : Snapshot) :
    (a.pages_shared ≠ b.pages_shared ∨ a.pages_sharing ≠ b.pages_sharing ∨
      a.pages_volatile ≠ b.pages_volatile ∨ a.pages_unshared ≠ b.pages_unshared) ↔ a ≠ b := by
  cases a
  cases b
  simp only [ne_eq, Snapshot.mk.injEq]
  tauto

/-- The loop from any state: it ends at the first poll after `count` that
reads what the poll before it read (`old` for poll `count + 1`). -/
theorem wait_loop_eq_some_iff (reads : Nat → Snapshot) (fuel count : Nat) (old : Snapshot)
    (k : Nat) :
    wait_loop reads fuel count old = some k ↔
      count < k ∧ k ≤ count + fuel ∧
        reads k = (if k = count + 1 then old else reads (k - 1)) ∧
        ∀ i, count < i → i < k → reads i ≠ (if i = count + 1 then old else reads (i - 1)) := by
  induction fuel generalizing count old with
  | zero =>
    simp only [wait_loop, Nat.add_zero]
    constructor
    · intro h
      cases h
    · rintro ⟨h1, h2, _⟩
      omega
  | succ fuel ih =>
    simp only [wait_loop, snapshot_ne_iff]
    by_cases hne : reads (count + 1) ≠ old
    · rw [if_pos hne, ih]
      constructor
      · rintro ⟨h1, h2, h3, h4⟩
        have hk : k ≠ count + 1 := by omega
        have hk2 : k ≠ count + 1 + 1 → k - 1 ≠ count + 1 := by omega
        refine ⟨by omega, by omega, ?_, fun i hi1 hi2 => ?_⟩
        · rw [if_neg hk]
          by_cases hk3 : k = count + 1 + 1
          · rw [if_pos hk3] at h3
            rw [h3, hk3]
            rfl
          · rw [if_neg hk3] at h3
            exact h3
        · by_cases hi3 : i = count + 1
          · rw [if_pos hi3, hi3]
            exact hne
          · rw [if_neg hi3]
            have := h4 i (by omega) hi2
            by_cases hi4 : i = count + 1 + 1
            · rw [if_pos hi4] at this
              rw [hi4] at this ⊢
              exact this
            · rw [if_neg hi4] at this
              exact this
      · rintro ⟨h1, h2, h3, h4⟩
        have hk : k ≠ count + 1 := by
          intro hk
          rw [if_pos hk, hk] at h3
          exact hne h3
        rw [if_neg hk] at h3
        refine ⟨by omega, by omega, ?_, fun i hi1 hi2 => ?_⟩
        · by_cases hk3 : k = count + 1 + 1
          · rw [if_pos hk3]
            rw [h3, hk3]
            rfl
          · rw [if_neg hk3]
            exact h3
        · have := h4 i (by omega) hi2
          have hi3 : i ≠ count + 1 := by omega
          rw [if_neg hi3] at this
          by_cases hi4 : i = count + 1 + 1
          · rw [if_pos hi4]
            rw [hi4] at this ⊢
            exact this
          · rw [if_neg hi4]
            exact this
    · rw [if_neg hne]
      have heq : reads (count + 1) = old := by
        by_contra h
        exact hne h
      constructor
      · intro h
        have hk : count + 1 = k := Option.some.inj h
        subst hk
        refine ⟨by omega, by omega, by simp [heq], fun i hi1 hi2 => ?_⟩
        omega
      · rintro ⟨h1, h2, h3, h4⟩
        by_cases hk : k = count + 1
        · rw [hk]
        · exfalso
          have := h4 (count + 1) (by omega) (by omega)
          simp [heq] at this

/-- C8, counterexample: when the first poll reads four zeros the
function returns after that single poll. -/
theorem wait_ksmd_done_returns_on_first_zero_read :
    _wait_ksmd_done (fun _ => ⟨0, 0, 0, 0⟩) 1 = some 1 ∧ ¬ 2 ≤ 1 := by
  decide

/-- C8, amended: `_wait_ksmd_done` returns after poll k exactly when k is the
least poll that reads the same four values as the poll before it, where the
first poll is compared with the zeros the `old_*` variables start at; so it
returns after a single read exactly when that read is four zeros, and else
only for k >= 2 with polls k-1 and k equal. Given fuel for k polls it does
return. -/
theorem wait_ksmd_done_returns_iff (reads : Nat → Snapshot) (fuel k : Nat) :
    (_wait_ksmd_done reads fuel = some k ↔
      1 ≤ k ∧ k ≤ fuel ∧ reads k = previous reads k ∧
        ∀ i, 1 ≤ i → i < k → reads i ≠ previous reads i) ∧
    (_wait_ksmd_done reads fuel = some 1 ↔ 1 ≤ fuel ∧ reads 1 = ⟨0, 0, 0, 0⟩) ∧
    (_wait_ksmd_done reads fuel = some k → reads 1 ≠ ⟨0, 0, 0, 0⟩ →
      2 ≤ k ∧ reads k = reads (k - 1)) := by
  have key : ∀ k, (_wait_ksmd_done reads fuel = some k ↔
      1 ≤ k ∧ k ≤ fuel ∧ reads k = previous reads k ∧
        ∀ i, 1 ≤ i → i < k → reads i ≠ previous reads i) := by
    intro k
    unfold _wait_ksmd_done previous
    rw [wait_loop_eq_some_iff]
    simp only [Nat.zero_add]
    have hp : ∀ i, 1 ≤ i → (i = 1 ↔ i ≤ 1) := fun i hi => by omega
    constructor
    · rintro ⟨h1, h2, h3, h4⟩
      refine ⟨h1, h2, ?_, fun i hi1 hi2 => ?_⟩
      · simpa only [hp k h1] using h3
      · simpa only [hp i hi1] using h4 i hi1 hi2
    · rintro ⟨h1, h2, h3, h4⟩
      refine ⟨h1, h2, ?_, fun i hi1 hi2 => ?_⟩
      · simpa only [hp k h1] using h3
      · simpa only [hp i hi1] using h4 i hi1 hi2
  refine ⟨key k, ?_, fun hk h1 => ?_⟩
  · rw [key 1]
    simp only [previous, le_refl, if_true, true_and]
    constructor
    · rintro ⟨h1, h2, _⟩
      exact ⟨h1, h2⟩
    · rintro ⟨h1, h2⟩
      exact ⟨h1, h2, fun i hi1 hi2 => by omega⟩
  · obtain ⟨hk1, _, hk3, _⟩ := (key k).1 hk
    have hk2 : 2 ≤ k := by
      by_contra hlt
      have : k = 1 := by omega
      subst this
      simp [previous] at hk3
      exact h1 hk3
    refine ⟨hk2, ?_⟩
    have : ¬ k ≤ 1 := by omega
    simpa only [previous, this, if_false] using hk3

/-- C8 amended, at a run that reads 1, then 2, then 2 in `pages_shared`: it
returns after the third poll. -/
theorem wait_ksmd_done_returns_iff_witness :
    _wait_ksmd_done (fun k => if k = 1 then ⟨1, 0, 0, 0⟩ else ⟨2, 0, 0, 0⟩) 3 = some 3 ∧
      (2 ≤ 3 ∧
        (fun k => if k = 1 then (⟨1, 0, 0, 0⟩ : Snapshot) else ⟨2, 0, 0, 0⟩) 3 =
          (fun k => if k = 1 then (⟨1, 0, 0, 0⟩ : Snapshot) else ⟨2, 0, 0, 0⟩) (3 - 1)) :=
  ⟨by decide,
    (wait_ksmd_done_returns_iff (fun k => if k = 1 then ⟨1, 0, 0, 0⟩ else ⟨2, 0, 0, 0⟩) 3 3).2.2
      (by decide) (by decide)⟩

theorem wait_constant (st : KsmState) (fuel : Nat) (hfuel : 2 ≤ fuel) :
    ∃ count, _wait_ksmd_done (fun _ => snapshot st) fuel = some count := by
  unfold _wait_ksmd_done
  by_cases h : snapshot st = ⟨0, 0, 0, 0⟩
  · refine ⟨1, ?_⟩
    rw [wait_loop_eq_some_iff]
    exact ⟨by omega, by omega, by simp [h], fun i h1 h2 => by omega⟩
  · refine ⟨2, ?_⟩
    rw [wait_loop_eq_some_iff]
    refine ⟨by omega, by omega, by simp, fun i h1 h2 => ?_⟩
    have hi : i = 0 + 1 := by omega
    rw [if_pos hi]
    exact h

theorem check_flatMap (st : KsmState) (e : Expected) (l : List KsmFile) :
    l.flatMap (fun f => _check st f (e.value f)) =
      (l.filter fun f => decide (st f ≠ e.value f)).map (fun f => ⟨f, e.value f⟩) := by
  induction l with
  | nil => rfl
  | cons f l ih =>
    rw [List.flatMap_cons, ih, List.filter_cons]
    by_cases h : st f ≠ e.value f
    · simp [_check, h]
    · simp [_check, h]

theorem count_check (st : KsmState) (g f : KsmFile) (v w : Int) :
    (_check st g v).count ⟨f, w⟩ = if g = f ∧ v = w ∧ st g ≠ v then 1 else 0 := by
  unfold _check
  by_cases h : st g ≠ v
  · by_cases h2 : g = f ∧ v = w
    · obtain ⟨rfl, rfl⟩ := h2
      simp [h]
    · have : ¬ (g = f ∧ v = w ∧ st g ≠ v) := fun hh => h2 ⟨hh.1, hh.2.1⟩
      rw [if_pos h, if_neg this, List.count_singleton]
      have hne : ((⟨g, v⟩ : CheckFail) == ⟨f, w⟩) = false := by
        rw [beq_eq_false_iff_ne]
        intro hh
        exact h2 ⟨congrArg CheckFail.path hh, congrArg CheckFail.value hh⟩
      simp [hne]
  · have : ¬ (g = f ∧ v = w ∧ st g ≠ v) := fun hh => h hh.2.2
    simp [h, this]

/-- C7: on KSM files that keep their values during the call, `_group_check`
returns (two polls are enough for the wait) and prints exactly one TFAIL
line for each of the seven files whose value differs from the expected
one, in the order of the checks, and none for a file that matches; the
number of TFAIL lines is the number of mismatching files. -/
theorem group_check_reports_each_mismatch (st : KsmState) (e : Expected) (fuel : Nat)
    (hfuel : 2 ≤ fuel) :
    ∃ log, _group_check fuel (fun _ => st) e.run e.pages_shared e.pages_sharing
        e.pages_volatile e.pages_unshared e.sleep_millisecs e.pages_to_scan = some log ∧
      log = (checked_files.filter fun f => decide (st f ≠ e.value f)).map
        (fun f => ⟨f, e.value f⟩) ∧
      (∀ f, log.count ⟨f, e.value f⟩ = if st f ≠ e.value f then 1 else 0) ∧
      (∀ x ∈ log, x.value = e.value x.path) ∧
      log.length = (checked_files.filter fun f => decide (st f ≠ e.value f)).length := by
  obtain ⟨count, hcount⟩ := wait_constant st fuel hfuel
  have hlog : _group_check fuel (fun _ => st) e.run e.pages_shared e.pages_sharing
      e.pages_volatile e.pages_unshared e.sleep_millisecs e.pages_to_scan =
      some (_check st .run e.run ++ _check st .pages_shared e.pages_shared ++
        _check st .pages_sharing e.pages_sharing ++ _check st .pages_volatile e.pages_volatile ++
        _check st .pages_unshared e.pages_unshared ++
        _check st .sleep_millisecs e.sleep_millisecs ++
        _check st .pages_to_scan e.pages_to_scan) := by
    unfold _group_check
    rw [hcount]
  have hfilter : _check st .run e.run ++ _check st .pages_shared e.pages_shared ++
        _check st .pages_sharing e.pages_sharing ++ _check st .pages_volatile e.pages_volatile ++
        _check st .pages_unshared e.pages_unshared ++
        _check st .sleep_millisecs e.sleep_millisecs ++
        _check st .pages_to_scan e.pages_to_scan =
      (checked_files.filter fun f => decide (st f ≠ e.value f)).map
        (fun f => ⟨f, e.value f⟩) := by
    rw [← check_flatMap]
    simp only [checked_files, List.flatMap_cons, List.flatMap_nil, List.append_nil,
      List.append_assoc, Expected.value]
  refine ⟨_, hlog, hfilter, fun f => ?_, fun x hx => ?_, ?_⟩
  · simp only [List.count_append, count_check]
    cases f <;> simp [Expected.value]
  · rw [hfilter] at hx
    obtain ⟨f, _, rfl⟩ := List.mem_map.1 hx
    rfl
  · rw [hfilter, List.length_map]

/-- C7 at a state that differs from the expected tuple in `pages_shared` and
`pages_unshared` only: two TFAIL lines. -/
theorem group_check_reports_each_mismatch_witness :
    2 ≤ 2 ∧
      _group_check 2 (fun _ f => if f = .pages_shared then 3 else if f = .run then 1 else 0)
        1 2 0 0 1 0 0 = some [⟨.pages_shared, 2⟩, ⟨.pages_unshared, 1⟩] := by
  obtain ⟨log, h1, h2, _⟩ := group_check_reports_each_mismatch
    (fun f => if f = .pages_shared then 3 else if f = .run then 1 else 0)
    ⟨1, 2, 0, 0, 1, 0, 0⟩ 2 (by decide)
  refine ⟨by decide, ?_⟩
  rw [h1, h2]
  decide

/-- C9, counterexample: for num = 5, size = 16, unit = 4 and 4096
byte pages the first `_group_check` is given pages_sharing 20478, not
`5 * (16 / 4) - 2 = 18`. -/
theorem first_round_sharing_is_not_18 :
    (group_checks (create_same_memory 16 5 4 4096)).head? =
        some ⟨1, 2, 20478, 0, 0, 0, 20480⟩ ∧
      (20478 : Int) ≠ 5 * (16 / 4) - 2 := by
  decide

/-- C9, amended: the first `_group_check` of `create_same_memory` is given
pages_shared = 2 and pages_sharing = size * num * pages - 2, where pages =
MB / page size is the number of pages in one MB; the unit does not enter.
For num = 5, size = 16 and 4096 byte pages these are 2 and 20478, and for
no page size is pages_sharing 18. -/
theorem first_round_expected (size num unit ps : Nat) :
    (group_checks (create_same_memory size num unit ps)).head? =
        some ⟨1, 2, (size : Int) * num * (MB / ps : Nat) - 2, 0, 0, 0,
          (size : Int) * (MB / ps : Nat) * num⟩ ∧
      (group_checks (create_same_memory 16 5 unit 4096)).head? =
        some ⟨1, 2, 20478, 0, 0, 0, 20480⟩ ∧
      (16 : Int) * 5 * (MB / ps : Nat) - 2 ≠ 18 := by
  refine ⟨rfl, rfl, ?_⟩
  omega

/-- C10, counterexample: already for size 1, num 3 and 4096 byte
pages the fourth `_group_check` expects the same pages_shared, 1, as the
third, not a smaller one. -/
theorem fourth_round_shared_not_smaller :
    ((group_checks (create_same_memory 1 3 1 4096)).get? 2).map Expected.pages_shared =
        some 1 ∧
      ((group_checks (create_same_memory 1 3 1 4096)).get? 3).map Expected.pages_shared =
        some 1 ∧
      ¬ ((1 : Int) < 1) := by
  decide

/-- C10, amended: for size >= 1, num >= 3 and at least one page per MB, the
fourth `_group_check` (child 1 carries the one-byte divergence in its last
pattern) expects the same pages_shared as the third, namely 1, a
pages_sharing that is smaller by exactly one, and exactly one page in
pages_volatile + pages_unshared (an unshared one), where the third expects
none. -/
theorem fourth_round_vs_third (size num unit ps : Nat) (hsize : 1 ≤ size) (hnum : 3 ≤ num)
    (hpages : 1 ≤ pages ps) :
    ∃ third fourth,
      (group_checks (create_same_memory size num unit ps)).get? 2 = some third ∧
      (group_checks (create_same_memory size num unit ps)).get? 3 = some fourth ∧
      (ksm_data1 size).get? 2 = some ⟨'d', size * MB⟩ ∧
      (ksm_data1 size).get? 3 = some ⟨'d', size * MB - 1⟩ ∧ size * MB - 1 < size * MB ∧
      third.pages_shared = 1 ∧ fourth.pages_shared = 1 ∧
      fourth.pages_sharing = third.pages_sharing - 1 ∧
      fourth.pages_sharing < third.pages_sharing ∧ 0 < fourth.pages_sharing ∧
      third.pages_volatile + third.pages_unshared = 0 ∧
      fourth.pages_volatile + fourth.pages_unshared = 1 ∧ fourth.pages_unshared = 1 := by
  have hMB := MB_pos
  have hpos : 3 ≤ size * num * pages ps := by
    calc 3 = 1 * 3 * 1 := rfl
      _ ≤ size * num * pages ps := Nat.mul_le_mul (Nat.mul_le_mul hsize hnum) hpages
  have hpos2 : (3 : Int) ≤ (size : Int) * num * (pages ps : Nat) := by exact_mod_cast hpos
  have hlt : size * MB - 1 < size * MB := by
    have : 0 < size * MB := Nat.mul_pos hsize hMB
    omega
  refine ⟨_, _, rfl, rfl, rfl, rfl, hlt, rfl, rfl, ?_, ?_, ?_, rfl, rfl, rfl⟩
  · show (size : Int) * num * (pages ps : Nat) - 2 = (size : Int) * num * (pages ps : Nat) - 1 - 1
    omega
  · show (size : Int) * num * (pages ps : Nat) - 2 < (size : Int) * num * (pages ps : Nat) - 1
    omega
  · show 0 < (size : Int) * num * (pages ps : Nat) - 2
    omega

/-- C10 amended, at size 1, num 3, unit 1 and 4096 byte pages. -/
theorem fourth_round_vs_third_witness :
    1 ≤ 1 ∧ 3 ≤ 3 ∧ 1 ≤ pages 4096 ∧
      ∃ third fourth,
        (group_checks (create_same_memory 1 3 1 4096)).get? 2 = some third ∧
        (group_checks (create_same_memory 1 3 1 4096)).get? 3 = some fourth ∧
        fourth.pages_shared = third.pages_shared ∧
        fourth.pages_sharing < third.pages_sharing := by
  obtain ⟨third, fourth, h3, h4, _, _, _, hs3, hs4, _, hlt, _⟩ :=
    fourth_round_vs_third 1 3 1 4096 (by decide) (by decide) (by decide)
  exact ⟨by decide, by decide, by decide, third, fourth, h3, h4, by rw [hs3, hs4], hlt⟩

/-! ## The `-u 0` case of the option check -/

/-- With `-u 0` and a size that is not negative, the `-u` block passes the
test `*unit > *size` and reaches `*size % *unit` with a zero divisor. -/
theorem check_unit_zero (size unit : Int) (hsize : 0 ≤ size) :
    check_unit (some 0) size unit = .error .division_by_zero := by
  have h : ¬ (0 : Int) > size := by omega
  simp [check_unit, h]

/-- C13: with `-s 16 -u 0`, and with `-u 0` alone over a size of 128,
`check_ksm_options` does not end the test with TBROK before the division:
`0 > size` is false, so it evaluates `size % 0`. -/
theorem unit_zero_reaches_division :
    check_ksm_options (some 16) none (some 0) 128 3 1 = .error .division_by_zero ∧
      check_ksm_options none none (some 0) 128 3 1 = .error .division_by_zero := by
  constructor <;> rfl

/-! ## The standard-id validator -/

theorem testBit_not64 (x i : Nat) :
    (not64 x).testBit i = (decide (i < 64) && !x.testBit i) := by
  have h : x % 2 ^ 64 < 2 ^ 64 := Nat.mod_lt _ (by decide)
  have e : not64 x = 2 ^ 64 - (x % 2 ^ 64 + 1) := by
    unfold not64
    omega
  rw [e, Nat.testBit_two_pow_sub_succ h, Nat.testBit_mod_two_pow]
  by_cases hi : i < 64 <;> simp [hi]

theorem testBit_of_lt_two_pow (x n i : Nat) (hx : x < 2 ^ n) (hi : n ≤ i) :
    x.testBit i = false :=
  Nat.testBit_lt_two_pow (Nat.lt_of_lt_of_le hx (Nat.pow_le_pow_right (by decide) hi))

/-- The test of the validator: no bit of `std_id` lies outside `u`. -/
theorem land_not64_eq_zero_iff (std_id u : Nat) (hid : std_id < 2 ^ 64) :
    std_id &&& not64 u = 0 ↔ ∀ i, std_id.testBit i = true → u.testBit i = true := by
  constructor
  · intro h i hi
    have := congrArg (fun x => x.testBit i) h
    simp only [Nat.testBit_land, testBit_not64, Nat.zero_testBit, hi, Bool.true_and] at this
    have h64 : i < 64 := by
      by_contra hge
      rw [testBit_of_lt_two_pow std_id 64 i hid (by omega)] at hi
      exact Bool.noConfusion hi
    simpa [h64] using this
  · intro h
    apply Nat.eq_of_testBit_eq
    intro i
    rw [Nat.testBit_land, testBit_not64, Nat.zero_testBit]
    by_cases hi : std_id.testBit i = true
    · simp [hi, h i hi]
    · simp [hi]

theorem std_union_kernel : std_union kernel_std = 2 ^ 26 - 1 := by decide

theorem subset_bits_iff_lt (std_id : Nat) :
    (∀ i, std_id.testBit i = true → (2 ^ 26 - 1).testBit i = true) ↔ std_id < 2 ^ 26 := by
  simp only [Nat.testBit_two_pow_sub_one, decide_eq_true_eq]
  constructor
  · intro h
    apply Nat.lt_pow_two_of_testBit
    intro i hi
    by_contra hne
    have := h i (by simpa using hne)
    omega
  · intro h i hi
    by_contra hge
    rw [testBit_of_lt_two_pow std_id 26 i h (by omega)] at hi
    exact Bool.noConfusion hi

theorem valid_iff (c : v4l2_std) (std_id : Nat) (hid : std_id < 2 ^ 64) :
    valid_v4l2_std_id c std_id = 1 ↔
      ∀ i, std_id.testBit i = true → (std_union c).testBit i = true := by
  rw [← land_not64_eq_zero_iff std_id (std_union c) hid]
  unfold valid_v4l2_std_id
  by_cases h : std_id &&& not64 (std_union c) = 0 <;> simp [h]

theorem valid_kernel_iff (std_id : Nat) (hid : std_id < 2 ^ 64) :
    valid_v4l2_std_id kernel_std std_id = 1 ↔ std_id < 2 ^ 26 := by
  rw [valid_iff kernel_std std_id hid, std_union_kernel, subset_bits_iff_lt]

theorem or_combination_lt (l : List Nat) (h : ∀ x ∈ l, x ∈ listed_standards kernel_std) :
    l.foldr (fun x acc => x ||| acc) 0 < 2 ^ 26 := by
  induction l with
  | nil => decide
  | cons x l ih =>
    have hx : x < 2 ^ 26 := by
      have := h x (List.mem_cons_self x l)
      simp only [listed_standards, kernel_std, List.mem_cons, List.mem_singleton,
        List.not_mem_nil, or_false] at this
      omega
    exact Nat.or_lt_two_pow hx (ih fun y hy => h y (List.mem_cons_of_mem x hy))

/-- C12: for every 64-bit `std_id`, `valid_v4l2_std_id` returns 1 if no bit
of `std_id` lies outside the union of the 26 listed standards and 0
otherwise; with the kernel's values of the macros (bits 0 to 25) it returns
1 exactly for `std_id < 2^26`, so 0 and every or-combination of listed
standards are valid and an id with a bit at position 26 or above is not. -/
theorem valid_v4l2_std_id_spec (c : v4l2_std) (std_id : Nat) (hid : std_id < 2 ^ 64) :
    (listed_standards c).length = 26 ∧
    (valid_v4l2_std_id c std_id = 1 ↔
      ∀ i, std_id.testBit i = true → (std_union c).testBit i = true) ∧
    (valid_v4l2_std_id c std_id = 0 ↔
      ¬ ∀ i, std_id.testBit i = true → (std_union c).testBit i = true) ∧
    (∀ i, (std_union c).testBit i = true ↔ ∃ x ∈ listed_standards c, x.testBit i = true) ∧
    (valid_v4l2_std_id kernel_std std_id = 1 ↔ std_id < 2 ^ 26) ∧
    (valid_v4l2_std_id kernel_std std_id = 0 ↔ 2 ^ 26 ≤ std_id) ∧
    valid_v4l2_std_id kernel_std 0 = 1 ∧
    (∀ l : List Nat, (∀ x ∈ l, x ∈ listed_standards kernel_std) →
      valid_v4l2_std_id kernel_std (l.foldr (fun x acc => x ||| acc) 0) = 1) ∧
    (∀ i, 26 ≤ i → std_id.testBit i = true → valid_v4l2_std_id kernel_std std_id = 0) := by
  have h01 : ∀ c x, valid_v4l2_std_id c x = 0 ↔ ¬ valid_v4l2_std_id c x = 1 := by
    intro c x
    unfold valid_v4l2_std_id
    by_cases h : x &&& not64 (std_union c) = 0 <;> simp [h]
  refine ⟨rfl, valid_iff c std_id hid, ?_, ?_, valid_kernel_iff std_id hid, ?_, by decide, ?_, ?_⟩
  · rw [h01, valid_iff c std_id hid]
  · intro i
    simp only [std_union, listed_standards, Nat.testBit_lor, Bool.or_eq_true, List.mem_cons,
      List.mem_singleton, List.not_mem_nil, or_false, exists_eq_or_imp, exists_eq_left,
      or_assoc]
  · rw [h01, valid_kernel_iff std_id hid]
    omega
  · intro l hl
    have hlt := or_combination_lt l hl
    exact (valid_kernel_iff _ (Nat.lt_of_lt_of_le hlt (by decide))).2 hlt
  · intro i hi hbit
    rw [h01, valid_kernel_iff std_id hid]
    intro hlt
    rw [testBit_of_lt_two_pow std_id 26 i hlt hi] at hbit
    exact Bool.noConfusion hbit

/-- C12 at `V4L2_STD_PAL_B | V4L2_STD_NTSC_M` (valid) and at bit 26 (not
valid). -/
theorem valid_v4l2_std_id_spec_witness :
    (0x1001 : Nat) < 2 ^ 64 ∧ valid_v4l2_std_id kernel_std 0x1001 = 1 ∧
      valid_v4l2_std_id kernel_std (2 ^ 26) = 0 :=
  ⟨by decide,
    (valid_v4l2_std_id_spec kernel_std 0x1001 (by decide)).2.2.2.2.1.2 (by decide),
    by decide⟩

/-! ## The stop/continue protocol -/

theorem run_child_of_count_succ (l : List ChildEvent) (n : Nat)
    (h : l.count ChildEvent.raise_SIGSTOP = n + 1) :
    ∃ rest, run_child l = some rest ∧ rest.count ChildEvent.raise_SIGSTOP = n := by
  induction l with
  | nil => simp at h
  | cons e l ih =>
    cases e with
    | raise_SIGSTOP =>
      refine ⟨l, rfl, ?_⟩
      simpa [List.count_cons] using h
    | tfail f =>
      have h2 : l.count ChildEvent.raise_SIGSTOP = n + 1 := by
        simpa [List.count_cons] using h
      exact ih h2

theorem run_child_of_count_zero (l : List ChildEvent)
    (h : l.count ChildEvent.raise_SIGSTOP = 0) : run_child l = none := by
  induction l with
  | nil => rfl
  | cons e l ih =>
    cases e with
    | raise_SIGSTOP => simp [List.count_cons] at h
    | tfail f =>
      have h2 : l.count ChildEvent.raise_SIGSTOP = 0 := by
        simpa [List.count_cons] using h
      exact ih h2

/-- A barrier on running children that each have `n + 1` stops ahead finds
every one of them stopped, at its next stop. -/
theorem stop_ksm_children_ok (cs : List Child) (n k : Nat) (sig : List Signal)
    (h : ∀ c ∈ cs, c.state = .running ∧ c.todo.count ChildEvent.raise_SIGSTOP = n + 1 ∧
      c.stops = k ∧ c.signals = sig) :
    ∃ cs', stop_ksm_children cs = .ok cs' ∧ cs'.length = cs.length ∧
      ∀ c ∈ cs', c.state = .stopped ∧ c.todo.count ChildEvent.raise_SIGSTOP = n ∧
        c.stops = k + 1 ∧ c.signals = sig ++ [.stop (k + 1)] := by
  induction cs with
  | nil => exact ⟨[], rfl, rfl, fun c hc => by cases hc⟩
  | cons c cs ih =>
    obtain ⟨hs, hc, hk, hsig⟩ := h c (List.mem_cons_self c cs)
    obtain ⟨rest, hrun, hrest⟩ := run_child_of_count_succ c.todo n hc
    obtain ⟨cs', hcs', hlen, hall⟩ := ih fun d hd => h d (List.mem_cons_of_mem c hd)
    refine ⟨⟨.stopped, rest, c.stops + 1, c.signals ++ [.stop (c.stops + 1)]⟩ :: cs', ?_, ?_, ?_⟩
    · simp [stop_ksm_children, wait_stopped, hs, hrun, hcs']
    · simp [hlen]
    · intro d hd
      rcases List.mem_cons.1 hd with rfl | hd
      · exact ⟨rfl, hrest, by simp [hk], by simp [hk, hsig]⟩
      · exact hall d hd

/-- A resume on stopped children sets every one of them running again. -/
theorem resume_ksm_children_ok (r : Nat) (cs : List Child) (n k : Nat) (sig : List Signal)
    (h : ∀ c ∈ cs, c.state = .stopped ∧ c.todo.count ChildEvent.raise_SIGSTOP = n ∧
      c.stops = k ∧ c.signals = sig) :
    ∀ c ∈ resume_ksm_children r cs, c.state = .running ∧
      c.todo.count ChildEvent.raise_SIGSTOP = n ∧ c.stops = k ∧
      c.signals = sig ++ [.cont r] := by
  intro c hc
  obtain ⟨d, hd, rfl⟩ := List.mem_map.1 hc
  obtain ⟨hs, hn, hk, hsig⟩ := h d hd
  simp [send_SIGCONT, hs, hn, hk, hsig]

/-- Running children with no stop ahead all end and are reaped. -/
theorem reap_children_ok (cs : List Child) (k : Nat) (sig : List Signal)
    (h : ∀ c ∈ cs, c.state = .running ∧ c.todo.count ChildEvent.raise_SIGSTOP = 0 ∧
      c.stops = k ∧ c.signals = sig) :
    ∃ cs', reap_children cs = .ok cs' ∧ cs'.length = cs.length ∧
      ∀ c ∈ cs', c.state = .exited ∧ c.stops = k ∧ c.signals = sig := by
  induction cs with
  | nil => exact ⟨[], rfl, rfl, fun c hc => by cases hc⟩
  | cons c cs ih =>
    obtain ⟨hs, hc, hk, hsig⟩ := h c (List.mem_cons_self c cs)
    have hrun := run_child_of_count_zero c.todo hc
    obtain ⟨cs', hcs', hlen, hall⟩ := ih fun d hd => h d (List.mem_cons_of_mem c hd)
    refine ⟨⟨.exited, [], c.stops, c.signals⟩ :: cs', ?_, ?_, ?_⟩
    · simp [reap_children, reap_child, hs, hrun, hcs']
    · simp [hlen]
    · intro d hd
      rcases List.mem_cons.1 hd with rfl | hd
      · exact ⟨rfl, hk, hsig⟩
      · exact hall d hd

/-- The protocol model tells a balanced run from an unbalanced one: a
barrier with no resume after it leaves the child stopped and the reaping
blocked, and a barrier on a child that has no stop left is a TBROK. -/
theorem run_parent_unbalanced :
    run_parent [.stop_ksm_children, .reap] 0 [⟨.running, [.raise_SIGSTOP], 0, []⟩] =
        .error .blocked ∧
      run_parent [.stop_ksm_children, .resume_ksm_children, .stop_ksm_children] 0
        [⟨.running, [.raise_SIGSTOP], 0, []⟩] = .error .TBROK ∧
      run_parent [.stop_ksm_children, .resume_ksm_children, .reap] 0
        [⟨.running, [.raise_SIGSTOP], 0, []⟩] =
        .ok (1, [⟨.exited, [], 1, [.stop 1, .cont 1]⟩]) := by
  refine ⟨rfl, rfl, rfl⟩


theorem fill_faults_eq_false (env : Env) (size unit : Nat) (hsize : 1 ≤ size)
    (hdvd : unit ∣ size)
    (hmapped : ∀ j i, j < size / unit → i < unit * MB → env.mapped j i = true) :
    fill_faults env size (size / unit) = false := by
  unfold fill_faults
  rw [units_div size unit hsize hdvd, List.any_eq_false]
  intro j hj
  rw [Bool.not_eq_true, List.any_eq_false]
  intro i hi
  rw [List.mem_range] at hj hi
  simp [hmapped j i hj hi]

/-- A round on two units or more, with a full-size pattern and nothing mapped
right after unit 0: the child fills, stops, and is killed in `_verify`. -/
theorem create_ksm_child_round_killed (env : Env) (child size unit : Nat)
    (d : ksm_merge_data) (memory : Memory) (hsize : 1 ≤ size) (hunit : 1 ≤ unit)
    (hdvd : unit ∣ size) (htwo : 2 ≤ size / unit) (hfull : ¬ d.mergeable_size < size * MB)
    (hint : size * MB < 2147483648) (hmalloc : ∀ n, env.malloc n = true)
    (hmapped : ∀ j i, j < size / unit → i < unit * MB → env.mapped j i = true)
    (hgap : env.mapped 0 (unit * MB) = false) :
    (create_ksm_child_round env child size unit d memory).events = [.raise_SIGSTOP] ∧
      (create_ksm_child_round env child size unit d memory).ending = .SIGSEGV := by
  have htu : ¬ size / unit = 0 := by omega
  have hv := post_round_verify_memset_sigsegv env child size unit d memory hsize hunit hdvd
    htwo hfull hint hmalloc (fun i hi => hmapped 0 i (by omega) hi) hgap
  unfold create_ksm_child_round
  simp only [htu, if_false, fill_faults_eq_false env size unit hsize hdvd hmapped,
    Bool.false_eq_true, hv, List.map_nil, and_self]

/-- The function `create_ksm_child` on two units or more, with a table whose
first pattern is full-size, `malloc` and `mmap` succeeding, the units
mapped and nothing mapped right after unit 0: the child stops after the
allocation, stops after the first fill, and is killed by SIGSEGV in the
first `_verify`. -/
theorem create_ksm_child_killed (env : Env) (child size unit : Nat) (d : ksm_merge_data)
    (ds : List ksm_merge_data) (memory : Memory) (hsize : 1 ≤ size) (hunit : 1 ≤ unit)
    (hdvd : unit ∣ size) (htwo : 2 ≤ size / unit) (hfull : ¬ d.mergeable_size < size * MB)
    (hint : size * MB < 2147483648) (hmalloc : ∀ n, env.malloc n = true)
    (hmmap : ∀ j, env.mmap j = true)
    (hmapped : ∀ j i, j < size / unit → i < unit * MB → env.mapped j i = true)
    (hgap : env.mapped 0 (unit * MB) = false) :
    (create_ksm_child env child size (unit : Int) (d :: ds) memory).events =
        [.raise_SIGSTOP, .raise_SIGSTOP] ∧
      (create_ksm_child env child size (unit : Int) (d :: ds) memory).ending = .SIGSEGV := by
  obtain ⟨hev, hend⟩ := create_ksm_child_round_killed env child size unit d memory hsize hunit
    hdvd htwo hfull hint hmalloc hmapped hgap
  have h0 : ¬ (unit : Int) = 0 := by omega
  have hneg : ¬ (unit : Int) < 0 := by omega
  have hany : (List.range (size / unit)).any (fun j => !env.mmap j) = false := by
    rw [List.any_eq_false]
    intro j _
    simp [hmmap j]
  unfold create_ksm_child
  simp only [h0, hneg, if_false, Int.toNat_ofNat, hmalloc, Bool.true_eq_false, and_false,
    hany, Bool.false_eq_true, List.take_succ_cons, create_ksm_child_rounds, hend, hev,
    and_self]

/-- The parent's statements against children that are running with five
stops ahead: every barrier finds every child stopped, stop k of every child
is continued by resume k, all children run when the reaping starts and all
have ended after it. -/
theorem run_parent_balanced (size num unit ps : Nat) (cs : List Child)
    (h0 : ∀ c ∈ cs, c.state = .running ∧ c.todo.count ChildEvent.raise_SIGSTOP = 4 + 1 ∧
      c.stops = 0 ∧ c.signals = []) :
    ∃ before after,
      run_parent (create_same_memory size num unit ps).dropLast 0 cs = .ok (5, before) ∧
        run_parent (create_same_memory size num unit ps) 0 cs = .ok (5, after) ∧
        before.length = cs.length ∧ after.length = cs.length ∧
        (∀ c ∈ before, c.state = .running ∧ c.stops = 5 ∧
          c.signals = [.stop 1, .cont 1, .stop 2, .cont 2, .stop 3, .cont 3,
            .stop 4, .cont 4, .stop 5, .cont 5]) ∧
        (∀ c ∈ after, c.state = .exited ∧ c.stops = 5 ∧
          c.signals = [.stop 1, .cont 1, .stop 2, .cont 2, .stop 3, .cont 3,
            .stop 4, .cont 4, .stop 5, .cont 5]) := by
  obtain ⟨c1, e1, l1, h1⟩ := stop_ksm_children_ok _ 4 0 [] h0
  have r1 := resume_ksm_children_ok 1 c1 4 1 _ h1
  obtain ⟨c2, e2, l2, h2⟩ := stop_ksm_children_ok _ 3 1 _ r1
  have r2 := resume_ksm_children_ok 2 c2 3 2 _ h2
  obtain ⟨c3, e3, l3, h3⟩ := stop_ksm_children_ok _ 2 2 _ r2
  have r3 := resume_ksm_children_ok 3 c3 2 3 _ h3
  obtain ⟨c4, e4, l4, h4⟩ := stop_ksm_children_ok _ 1 3 _ r3
  have r4 := resume_ksm_children_ok 4 c4 1 4 _ h4
  obtain ⟨c5, e5, l5, h5⟩ := stop_ksm_children_ok _ 0 4 _ r4
  have r5 := resume_ksm_children_ok 5 c5 0 5 _ h5
  obtain ⟨c6, e6, l6, h6⟩ := reap_children_ok _ 5 _ r5
  have hlen5 : (resume_ksm_children 5 c5).length = cs.length := by
    simp [resume_ksm_children, l5, l4, l3, l2, l1]
  refine ⟨resume_ksm_children 5 c5, c6, ?_, ?_, hlen5, by rw [l6, hlen5], ?_, ?_⟩
  · simp only [create_same_memory, List.dropLast, run_parent, e1, e2, e3, e4, e5]
  · simp only [create_same_memory, run_parent, e1, e2, e3, e4, e5, e6]
  · intro c hc
    obtain ⟨hs, _, hk, hsig⟩ := r5 c hc
    exact ⟨hs, hk, by simpa using hsig⟩
  · intro c hc
    obtain ⟨hs, hk, hsig⟩ := h6 c hc
    exact ⟨hs, hk, by simpa using hsig⟩

/-- The abnormal ends of `create_ksm_child` on units the option check lets
through or the caller can pass: `unit == 0` is a SIGFPE before any stop; a
unit above the size (`total_unit == 0`) is a SIGFPE in the first fill, after
the first stop; a negative unit that divides the size leaves the pointer
array NULL and the child is killed in the first `_verify`, after two
stops. -/
theorem create_ksm_child_bad_unit (memory : Memory) :
    ((create_ksm_child ⟨fun _ _ => true, fun _ => true, fun _ => true⟩ 0 16 0
        (child_data 16 0) memory).events = [] ∧
      (create_ksm_child ⟨fun _ _ => true, fun _ => true, fun _ => true⟩ 0 16 0
        (child_data 16 0) memory).ending = .SIGFPE) ∧
    ((create_ksm_child ⟨fun _ _ => true, fun _ => true, fun _ => true⟩ 0 2 4
        (child_data 2 0) memory).events = [.raise_SIGSTOP] ∧
      (create_ksm_child ⟨fun _ _ => true, fun _ => true, fun _ => true⟩ 0 2 4
        (child_data 2 0) memory).ending = .SIGFPE) ∧
    ((create_ksm_child ⟨fun _ _ => true, fun _ => true, fun _ => true⟩ 0 4 (-2)
        (child_data 4 0) memory).events = [.raise_SIGSTOP, .raise_SIGSTOP] ∧
      (create_ksm_child ⟨fun _ _ => true, fun _ => true, fun _ => true⟩ 0 4 (-2)
        (child_data 4 0) memory).ending = .SIGSEGV) := by
  refine ⟨⟨rfl, rfl⟩, ⟨rfl, rfl⟩, ⟨rfl, rfl⟩⟩

theorem count_stop_map_tfail (fails : List VerifyFail) :
    (fails.map ChildEvent.tfail).count ChildEvent.raise_SIGSTOP = 0 := by
  induction fails with
  | nil => rfl
  | cons f fs ih => simp [List.count_cons, ih]

theorem length_child_data (size i : Nat) : (child_data size i).length = 4 := by
  unfold child_data
  split_ifs <;> rfl

/-- A round on one unit, with a byte count that fits an `int`, `malloc`
succeeding and the unit mapped: the child fills, stops once, verifies and
goes on, whatever its memory held. -/
theorem create_ksm_child_round_one_unit (env : Env) (child size : Nat) (d : ksm_merge_data)
    (memory : Memory) (hsize : 1 ≤ size) (hint : size * MB < 2147483648)
    (hmalloc : ∀ n, env.malloc n = true)
    (hmapped : ∀ i, i < size * MB → env.mapped 0 i = true) :
    (create_ksm_child_round env child size size d memory).events.count
        ChildEvent.raise_SIGSTOP = 1 ∧
      (create_ksm_child_round env child size size d memory).ending = .returned := by
  have htu : size / size = 1 := Nat.div_self hsize
  have hfill : fill_faults env size (size / size) = false :=
    fill_faults_eq_false env size size hsize (Nat.dvd_refl size) (fun j i hj hi => by
      have : j = 0 := by omega
      subst this
      exact hmapped i hi)
  have h1 : ¬ size / size = 0 := by omega
  unfold create_ksm_child_round
  simp only [h1, if_false, hfill, Bool.false_eq_true, List.count_cons, count_stop_map_tfail,
    beq_self_eq_true, if_true, Nat.zero_add, true_and]
  exact post_round_verify_one_unit_returns env child size d _ hsize hint hmalloc hmapped

theorem create_ksm_child_rounds_one_unit (env : Env) (child size : Nat)
    (ds : List ksm_merge_data) (memory : Memory) (hsize : 1 ≤ size)
    (hint : size * MB < 2147483648) (hmalloc : ∀ n, env.malloc n = true)
    (hmapped : ∀ i, i < size * MB → env.mapped 0 i = true) :
    (create_ksm_child_rounds env child size size ds memory).events.count
        ChildEvent.raise_SIGSTOP = ds.length ∧
      (create_ksm_child_rounds env child size size ds memory).ending = .returned := by
  induction ds generalizing memory with
  | nil => exact ⟨rfl, rfl⟩
  | cons d ds ih =>
    obtain ⟨hc, he⟩ := create_ksm_child_round_one_unit env child size d memory hsize hint
      hmalloc hmapped
    obtain ⟨hc2, he2⟩ := ih (create_ksm_child_round env child size size d memory).memory
    simp only [create_ksm_child_rounds, he, List.count_append, hc, hc2, he2,
      List.length_cons, and_true]
    omega

/-- The function `create_ksm_child` with one unit (`unit = size`), on its
table, in such an address space: it stops itself exactly 5 times and returns. -/
theorem create_ksm_child_one_unit (env : Env) (child size i : Nat) (memory : Memory)
    (hsize : 1 ≤ size) (hint : size * MB < 2147483648) (hmalloc : ∀ n, env.malloc n = true)
    (hmmap : ∀ j, env.mmap j = true)
    (hmapped : ∀ k, k < size * MB → env.mapped 0 k = true) :
    (create_ksm_child env child size (size : Int) (child_data size i) memory).events.count
        ChildEvent.raise_SIGSTOP = 4 + 1 ∧
      (create_ksm_child env child size (size : Int) (child_data size i) memory).ending =
        .returned := by
  have h0 : ¬ (size : Int) = 0 := by omega
  have hneg : ¬ (size : Int) < 0 := by omega
  have hany : (List.range (size / size)).any (fun j => !env.mmap j) = false := by
    rw [List.any_eq_false]
    intro j _
    simp [hmmap j]
  have htake : (child_data size i).take 4 = child_data size i :=
    List.take_of_length_le (by rw [length_child_data])
  obtain ⟨hc, he⟩ := create_ksm_child_rounds_one_unit env child size (child_data size i)
    memory hsize hint hmalloc hmapped
  unfold create_ksm_child
  simp only [h0, hneg, if_false, Int.toNat_ofNat, hmalloc, Bool.true_eq_false, and_false,
    hany, Bool.false_eq_true, htake, List.count_cons, hc, he, length_child_data,
    beq_self_eq_true, if_true, and_self]

/-- With one unit per child the protocol is balanced: for every num, when no
byte count overflows and every child finds its unit mapped and its
allocations granted, each child stops itself 5 times, every barrier finds
every child stopped, stop k is continued by resume k, all children run when
the reaping starts and all have ended after it. -/
theorem stop_continue_balanced_one_unit (env : Nat → Env) (size num ps : Nat)
    (memory : Nat → Memory) (hsize : 1 ≤ size) (hint : size * MB < 2147483648)
    (hmalloc : ∀ i n, (env i).malloc n = true) (hmmap : ∀ i j, (env i).mmap j = true)
    (hmapped : ∀ i k, k < size * MB → (env i).mapped 0 k = true) :
    ∃ before after,
      run_parent (create_same_memory size num size ps).dropLast 0
          (fork_children env size num (size : Int) memory) = .ok (5, before) ∧
        run_parent (create_same_memory size num size ps) 0
          (fork_children env size num (size : Int) memory) = .ok (5, after) ∧
        before.length = num ∧ after.length = num ∧
        (∀ c ∈ before, c.state = .running ∧ c.stops = 5 ∧
          c.signals = [.stop 1, .cont 1, .stop 2, .cont 2, .stop 3, .cont 3,
            .stop 4, .cont 4, .stop 5, .cont 5]) ∧
        (∀ c ∈ after, c.state = .exited ∧ c.stops = 5 ∧
          c.signals = [.stop 1, .cont 1, .stop 2, .cont 2, .stop 3, .cont 3,
            .stop 4, .cont 4, .stop 5, .cont 5]) := by
  have h0 : ∀ c ∈ fork_children env size num (size : Int) memory, c.state = .running ∧
      c.todo.count ChildEvent.raise_SIGSTOP = 4 + 1 ∧ c.stops = 0 ∧ c.signals = [] := by
    intro c hc
    obtain ⟨i, _, rfl⟩ := List.mem_map.1 hc
    exact ⟨rfl, (create_ksm_child_one_unit (env i) i size i (memory i) hsize hint
      (hmalloc i) (hmmap i) (hmapped i)).1, rfl, rfl⟩
  have hlen : (fork_children env size num (size : Int) memory).length = num := by
    simp [fork_children]
  obtain ⟨before, after, e1, e2, l1, l2, hb, ha⟩ :=
    run_parent_balanced size num size ps _ h0
  exact ⟨before, after, e1, e2, by rw [l1, hlen], by rw [l2, hlen], hb, ha⟩

/-- C11: for size 16, num 3, unit 4 (four units per child) and 4096 byte
pages, with every allocation granted, every unit mapped for its 4 MB and
nothing mapped right after unit 0, the protocol is not balanced. Each of
the three children stops after the allocation, stops after the first fill
and is then killed by SIGSEGV in the first `_verify`, whose `memcmp` is
asked for 16 MB from the 4 MB unit `memory[0]`: it stops itself twice, not 5
times. The parent passes two barriers and two resumes, and its third
`stop_ksm_children` finds child 0 not stopped: TBROK. -/
theorem children_killed_after_two_stops :
    (∀ i, i < 3 →
      (create_ksm_child ⟨fun _ k => decide (k < 4 * MB), fun _ => true, fun _ => true⟩ i 16 4
          (child_data 16 i) (fun _ _ => Char.ofNat 0)).events =
          [.raise_SIGSTOP, .raise_SIGSTOP] ∧
        (create_ksm_child ⟨fun _ k => decide (k < 4 * MB), fun _ => true, fun _ => true⟩ i 16 4
          (child_data 16 i) (fun _ _ => Char.ofNat 0)).ending = .SIGSEGV) ∧
      run_parent ((create_same_memory 16 3 4 4096).take 9) 0
          (fork_children (fun _ => ⟨fun _ k => decide (k < 4 * MB), fun _ => true,
            fun _ => true⟩) 16 3 4 (fun _ _ _ => Char.ofNat 0)) =
        .ok (2, List.replicate 3
          ⟨.running, [], 2, [.stop 1, .cont 1, .stop 2, .cont 2]⟩) ∧
      run_parent (create_same_memory 16 3 4 4096) 0
          (fork_children (fun _ => ⟨fun _ k => decide (k < 4 * MB), fun _ => true,
            fun _ => true⟩) 16 3 4 (fun _ _ _ => Char.ofNat 0)) = .error .TBROK := by
  have hchild : ∀ i,
      (create_ksm_child ⟨fun _ k => decide (k < 4 * MB), fun _ => true, fun _ => true⟩ i 16 4
          (child_data 16 i) (fun _ _ => Char.ofNat 0)).events =
          [.raise_SIGSTOP, .raise_SIGSTOP] ∧
        (create_ksm_child ⟨fun _ k => decide (k < 4 * MB), fun _ => true, fun _ => true⟩ i 16 4
          (child_data 16 i) (fun _ _ => Char.ofNat 0)).ending = .SIGSEGV := by
    intro i
    obtain ⟨d, ds, htab, hd⟩ : ∃ d ds, child_data 16 i = d :: ds ∧
        ¬ d.mergeable_size < 16 * MB := by
      unfold child_data
      split_ifs
      · exact ⟨_, _, rfl, by decide⟩
      · exact ⟨_, _, rfl, by decide⟩
      · exact ⟨_, _, rfl, by decide⟩
      · exact ⟨_, _, rfl, by decide⟩
    rw [htab]
    exact create_ksm_child_killed _ i 16 4 d ds _ (by decide) (by decide) (by decide)
      (by decide) hd (by decide) (fun _ => rfl) (fun _ => rfl)
      (fun j k _ hk => by simpa using hk) (by decide)
  have hfork : fork_children (fun _ => ⟨fun _ k => decide (k < 4 * MB), fun _ => true,
      fun _ => true⟩) 16 3 4 (fun _ _ _ => Char.ofNat 0) =
      List.replicate 3 ⟨.running, [.raise_SIGSTOP, .raise_SIGSTOP], 0, []⟩ := by
    simp only [fork_children, List.range, List.range.loop, List.map_cons, List.map_nil,
      (hchild 0).1, (hchild 1).1, (hchild 2).1]
    rfl
  refine ⟨fun i _ => hchild i, ?_, ?_⟩
  · rw [hfork]
    rfl
  · rw [hfork]
    rfl

end LtpMem
